import Mathlib

/-!
# Verification of the mail-store protocol engine (IMAP FETCH/STORE core)

Shallow embedding of the record-processing loops of
`crates/imap/src/op/store.rs` (mutation engine with optimistic concurrency)
and `crates/imap/src/op/fetch.rs` (attribute projection and structure
navigation), together with proofs settling the specification claims.

Machine integers are modelled as `Nat`; byte buffers as `List Nat`;
fallible paths as `Option`/`Except`.  Store reads, the compare-and-swap
outcome of each conditional write, and raw-content lookups are supplied by
explicit environment records, so that concurrent interference is an input
of the model rather than hidden state.
-/

namespace MailStore

/-- Symbolic message label (JMAP `Keyword`): the system `\Seen`, `$Junk`,
`$NotJunk` markers plus arbitrary other markers. -/
inductive Keyword where
  | seen
  | junk
  | notJunk
  | other (n : Nat)
deriving DecidableEq, Repr

/-- Modelled from the spec: mutable per-record message data (`MessageData`
of the `email` crate, not under `src/`): the ordered Label Set, the set of
mailboxes containing the message, and the change id stamped by the last
mutation.  The Label Set is "an ordered set of symbolic markers" (spec §3). -/
structure MessageData where
  keywords : List Keyword
  mailboxes : List Nat
  changeId : Nat
deriving DecidableEq, Repr

/-- Modelled from the spec: membership test on the Label Set
(`MessageData::has_keyword`). -/
def MessageData.hasKeyword (d : MessageData) (k : Keyword) : Bool :=
  d.keywords.contains k

/-- Modelled from the spec: replace the whole Label Set
(`MessageData::set_keywords`). -/
def MessageData.setKeywords (d : MessageData) (ks : List Keyword) : MessageData :=
  { d with keywords := ks }

/-- Modelled from the spec: add one marker to the ordered Label Set if it is
not already present, reporting whether it was added
(`MessageData::add_keyword`). -/
def MessageData.addKeyword (d : MessageData) (k : Keyword) : MessageData × Bool :=
  if d.keywords.contains k then (d, false)
  else ({ d with keywords := d.keywords ++ [k] }, true)

/-- Modelled from the spec: remove one marker from the Label Set, reporting
whether it was present (`MessageData::remove_keyword`). -/
def MessageData.removeKeyword (d : MessageData) (k : Keyword) : MessageData × Bool :=
  if d.keywords.contains k then ({ d with keywords := d.keywords.filter (· ≠ k) }, true)
  else (d, false)

/-- Modelled from the spec: "If the new Label Set equals the old one, no
write occurs" — the changed-labels test compares the new ordered Label Set
against the old one (`MessageData::has_keyword_changes`). -/
def MessageData.hasKeywordChanges (new old : MessageData) : Bool :=
  new.keywords ≠ old.keywords

/-- Modelled from the spec: markers present in the new Label Set but not the
old (`MessageData::added_keywords`). -/
def MessageData.addedKeywords (new old : MessageData) : List Keyword :=
  new.keywords.filter (fun k => ¬ old.keywords.contains k)

/-- Modelled from the spec: markers present in the old Label Set but not the
new (`MessageData::removed_keywords`). -/
def MessageData.removedKeywords (new old : MessageData) : List Keyword :=
  old.keywords.filter (fun k => ¬ new.keywords.contains k)

/-- STORE label operation (`imap_proto` `store::Operation`):
replace / add / remove the given labels. -/
inductive Operation where
  | set
  | add
  | clear
deriving DecidableEq, Repr

/-- Apply a STORE operation to a record's data, returning the new data and
whether the presence of the `\Seen` marker changed
(`store.rs` lines 232-254). -/
def applyOperation (op : Operation) (setKeywords : List Keyword) (d : MessageData) :
    MessageData × Bool :=
  match op with
  | .set =>
      (d.setKeywords setKeywords,
       setKeywords.contains Keyword.seen != d.hasKeyword Keyword.seen)
  | .add =>
      setKeywords.foldl
        (fun (acc : MessageData × Bool) k =>
          let r := acc.1.addKeyword k
          (r.1, acc.2 || (r.2 && k == Keyword.seen)))
        (d, false)
  | .clear =>
      setKeywords.foldl
        (fun (acc : MessageData × Bool) k =>
          let r := acc.1.removeKeyword k
          (r.1, acc.2 || (r.2 && k == Keyword.seen)))
        (d, false)

/-- IMAP id of a record inside the selected mailbox: 1-based sequence
position and persistent UID. -/
structure ImapId where
  seqnum : Nat
  uid : Nat
deriving DecidableEq, Repr

/-- Change-log entry (`store` crate `Change`), scoped to a collection. -/
inductive ChangeEntry where
  | update (collection : Nat) (id : Nat)
  | childUpdate (collection : Nat) (id : Nat)
deriving DecidableEq, Repr

/-- Collection tags used by the STORE path. -/
def emailCollection : Nat := 0
def mailboxCollection : Nat := 1

/-- Modelled from the spec: the mutable change-log builder
(`ChangeLogBuilder` of the `store` crate, not under `src/`): an optionally
assigned change id (the Rust sentinel `u64::MAX` meaning "unassigned" is
modelled as `none`) plus the accumulated entries. -/
structure ChangeLog where
  changeId : Option Nat
  changes : List ChangeEntry
deriving DecidableEq, Repr

def ChangeLog.new : ChangeLog := { changeId := none, changes := [] }

/-- Modelled from the spec: a builder is empty when it holds no entries. -/
def ChangeLog.isEmpty (c : ChangeLog) : Bool := c.changes.isEmpty

def ChangeLog.logUpdate (c : ChangeLog) (collection id : Nat) : ChangeLog :=
  { c with changes := c.changes ++ [ChangeEntry.update collection id] }

def ChangeLog.logChildUpdate (c : ChangeLog) (collection id : Nat) : ChangeLog :=
  { c with changes := c.changes ++ [ChangeEntry.childUpdate collection id] }

/-- Outcome of one conditional batch write against the store: success, a
CAS/assertion failure from a concurrent writer, or any other store error. -/
inductive WriteOutcome where
  | ok
  | assertFail
  | fatal
deriving DecidableEq, Repr

/-- Environment of a STORE command: the per-(record, attempt) outcome of
the conditional write, abstracting the concurrent writers that decide
whether the Version Token read still matches. -/
structure StoreEnv where
  write : Nat → Nat → WriteOutcome

/-- Response data items attached to a STORE untagged reply
(`imap_proto` `fetch::DataItem`, restricted to the items STORE emits). -/
inductive RespData where
  | flags (keywords : List Keyword)
  | uid (uid : Nat)
  | modseq (modseq : Nat)
deriving DecidableEq, Repr

/-- One untagged per-record response of a STORE command. -/
structure RespItem where
  seqnum : Nat
  items : List RespData
deriving DecidableEq, Repr

/-- STORE command arguments after parsing (`store::Arguments`, restricted to
the record-processing phase: no `UNCHANGEDSINCE` precondition). -/
structure StoreArgs where
  operation : Operation
  keywords : List Keyword
  isSilent : Bool
deriving Repr

/-- Session flags relevant to the STORE record loop. -/
structure StoreCtx where
  isUid : Bool
  isCondstore : Bool
deriving Repr

/-- State threaded through the STORE record loop: the store contents
(record id to data and thread id), the per-account change counter, the
change-log builder, the set of mailboxes marked structurally changed, the
accumulated response items, the response-downgrade flag and a trace of the
record reads performed (one entry per loop iteration, recording the record
id and the attempt index). -/
structure StoreState where
  db : Nat → Option (MessageData × Nat)
  counter : Nat
  changelog : ChangeLog
  changedMailboxes : List Nat
  items : List RespItem
  failed : Bool
  reads : List (Nat × Nat)

/-- `assign_change_id`: atomically increment the per-account change counter,
returning the assigned change id (`server.assign_change_id`). -/
def StoreState.assignChangeId (st : StoreState) : Nat × StoreState :=
  (st.counter, { st with counter := st.counter + 1 })

/-- Assign the builder's change id lazily: only the first assignment
increments the counter (`store.rs` lines 291-297). -/
def StoreState.ensureChangeId (st : StoreState) : Nat × StoreState :=
  match st.changelog.changeId with
  | some cid => (cid, st)
  | none =>
      let r := st.assignChangeId
      (r.1, { r.2 with changelog := { r.2.changelog with changeId := some r.1 } })

/-- Mark every mailbox currently containing the message as structurally
changed (`store.rs` lines 300-305); insertion into the set is idempotent. -/
def StoreState.markMailboxes (st : StoreState) (mbs : List Nat) : StoreState :=
  { st with changedMailboxes :=
      (mbs.foldl (fun acc m => if acc.contains m then acc else acc ++ [m])
        st.changedMailboxes) }

/-- Untagged response items pushed after a successful write
(`store.rs` lines 345-371). -/
def successItems (args : StoreArgs) (ctx : StoreCtx) (imapId : ImapId)
    (newKeywords : List Keyword) (modseq : Nat) : List RespItem :=
  if !args.isSilent then
    [{ seqnum := imapId.seqnum,
       items := [RespData.flags newKeywords]
         ++ (if ctx.isUid then [RespData.uid imapId.uid] else [])
         ++ (if ctx.isCondstore then [RespData.modseq modseq] else []) }]
  else if ctx.isCondstore then
    [{ seqnum := imapId.seqnum,
       items := if ctx.isUid then
           [RespData.modseq modseq, RespData.uid imapId.uid]
         else
           [RespData.modseq modseq] }]
  else
    []

/-- One record of the STORE loop (`store.rs` lines 200-388): read the
record, apply the label operation, and — when the computed Label Set
differs from the current one — assign the change id, mark mailboxes on a
`\Seen` transition and attempt the conditional write, retrying on an
assertion failure while `tryCount < maxRetries` and otherwise downgrading
the response; a fatal store error aborts the whole command.  `fuel`
decreases with each retry and starts at `maxRetries - tryCount`. -/
def storeRecordGo (env : StoreEnv) (maxRetries : Nat) (args : StoreArgs)
    (ctx : StoreCtx) (id : Nat) (imapId : ImapId) :
    Nat → Nat → StoreState → Except Unit StoreState
  | tryCount, fuel, st =>
    let st := { st with reads := st.reads ++ [(id, tryCount)] }
    match st.db id with
    | none => .ok st
    | some (data, threadId) =>
      let r := applyOperation args.operation args.keywords data
      let newData := r.1
      let seenChanged := r.2
      if newData.hasKeywordChanges data then
        let a := st.ensureChangeId
        let cid := a.1
        let st := a.2
        let newData := { newData with changeId := cid }
        let st := if seenChanged then st.markMailboxes newData.mailboxes else st
        match env.write id tryCount with
        | .ok =>
            .ok { st with
              db := fun i => if i = id then some (newData, threadId) else st.db i,
              changelog := st.changelog.logUpdate emailCollection id,
              items := st.items ++ successItems args ctx imapId newData.keywords (cid + 1) }
        | .assertFail =>
            match fuel with
            | fuel' + 1 => storeRecordGo env maxRetries args ctx id imapId
                (tryCount + 1) fuel' st
            | 0 => .ok { st with failed := true }
        | .fatal => .error ()
      else
        .ok st

/-- Process one record with a fresh retry counter. -/
def storeRecord (env : StoreEnv) (maxRetries : Nat) (args : StoreArgs)
    (ctx : StoreCtx) (id : Nat) (imapId : ImapId) (st : StoreState) :
    Except Unit StoreState :=
  storeRecordGo env maxRetries args ctx id imapId 0 maxRetries st

/-- Process every resolved record in the order the resolved id map yields
them (`store.rs` line 200, `for (id, imap_id) in &ids`). -/
def storeRecords (env : StoreEnv) (maxRetries : Nat) (args : StoreArgs)
    (ctx : StoreCtx) : List (Nat × ImapId) → StoreState → Except Unit StoreState
  | [], st => .ok st
  | (id, imapId) :: rest, st =>
    match storeRecord env maxRetries args ctx id imapId st with
    | .ok st' => storeRecords env maxRetries args ctx rest st'
    | .error e => .error e

/-- Final result of the STORE record-processing phase: the post state, the
committed batch (change id and entries, `none` when the builder was empty),
and the broadcast state-change notification (`none` when nothing was
committed; `some true` when mailbox changes are included). -/
structure StoreResult where
  state : StoreState
  committed : Option (Nat × List ChangeEntry)
  broadcast : Option Bool

/-- The STORE record-processing phase (`store.rs` lines 200-417): process
each record, append a `ChildUpdate` entry per changed mailbox, and commit
the batch and broadcast one state-change notification only when the builder
is non-empty. -/
def runStore (env : StoreEnv) (maxRetries : Nat) (args : StoreArgs)
    (ctx : StoreCtx) (ids : List (Nat × ImapId)) (st : StoreState) :
    Except Unit StoreResult :=
  match storeRecords env maxRetries args ctx ids st with
  | .error e => .error e
  | .ok st =>
    let st := { st with changelog :=
        (st.changedMailboxes.foldl
          (fun c m => c.logChildUpdate mailboxCollection m) st.changelog) }
    if st.changelog.isEmpty then
      .ok { state := st, committed := none, broadcast := none }
    else
      .ok { state := st,
            committed := some (st.changelog.changeId.getD st.counter, st.changelog.changes),
            broadcast := some (!st.changedMailboxes.isEmpty) }

/-- Initial state of a STORE command over a given store and counter. -/
def initStoreState (db : Nat → Option (MessageData × Nat)) (counter : Nat) :
    StoreState :=
  { db := db, counter := counter, changelog := ChangeLog.new,
    changedMailboxes := [], items := [], failed := false, reads := [] }

end MailStore

namespace MailStore

/-- One parsed header of a part: its name, the byte offsets of its raw value
(including the line terminator) inside the owning tree level's raw buffer,
and whether the name is classified as MIME-related
(`ArchivedHeaderName::is_mime_header`, modelled as a stored flag). -/
structure MHeader where
  name : String
  offsetStart : Nat
  offsetEnd : Nat
  isMime : Bool
deriving DecidableEq, Repr

mutual

/-- A node of the Message Structure Tree
(`ArchivedMessagePart` of the `email` crate metadata, spec §3): byte
offsets (header start, body start, body end) into the raw buffer scoped to
the owning tree level, the parsed header list, the encoding-decode failure
flag and the body variant. -/
inductive MetaPart : Type where
  | mk (offsetHeader offsetBody offsetEnd : Nat) (headers : List MHeader)
      (isEncodingProblem : Bool) (body : MetaPartType)

/-- Body variant of a part (`ArchivedMetadataPartType`): decodable text
leaves, binary leaves, a multipart with the ordered list of child part
indices, or an embedded message with its own independent part list. -/
inductive MetaPartType : Type where
  | text
  | html
  | binary
  | inlineBinary
  | multipart (subparts : List Nat)
  | message (parts : List MetaPart)

end

def MetaPart.offsetHeader : MetaPart → Nat
  | .mk h _ _ _ _ _ => h

def MetaPart.offsetBody : MetaPart → Nat
  | .mk _ b _ _ _ _ => b

def MetaPart.offsetEnd : MetaPart → Nat
  | .mk _ _ e _ _ _ => e

def MetaPart.headers : MetaPart → List MHeader
  | .mk _ _ _ hs _ _ => hs

def MetaPart.isEncodingProblem : MetaPart → Bool
  | .mk _ _ _ _ p _ => p

def MetaPart.body : MetaPart → MetaPartType
  | .mk _ _ _ _ _ b => b

/-- `sub_parts`: the ordered child indices of a multipart node, `none` for
every other node kind. -/
def MetaPart.subParts : MetaPart → Option (List Nat)
  | .mk _ _ _ _ _ (.multipart l) => some l
  | _ => none

/-- `is_message`: whether the node is an embedded-message node. -/
def MetaPart.isMessage : MetaPart → Bool
  | .mk _ _ _ _ _ (.message _) => true
  | _ => false

instance : Inhabited MetaPart :=
  ⟨MetaPart.mk 0 0 0 [] false MetaPartType.text⟩

/-- `root_part`: the first part of a tree level's part list. -/
def rootPart (parts : List MetaPart) : MetaPart := parts.headD default

/-- Raw-byte access of `DecodedParts` (the `email` crate's decoded view over
the raw message, not under `src/`), abstracted: `sectionBytes mid a b`
models `raw_message_section_arch(mid, a, b)` (the bytes between offsets `a`
and `b` of the raw buffer scoped to nested-message level `mid`);
`binBytes` models `binary_part` (content-transfer-decoded bytes) and
`partBytes` models `part`. -/
structure Decoded where
  sectionBytes : Nat → Nat → Nat → Option (List Nat)
  binBytes : Nat → Nat → Option (List Nat)
  partBytes : Nat → Nat → Option (List Nat)

/-- `get_partial_bytes`: clamp a byte buffer to an optional
(start, length) subrange, saturating at the buffer end; a start past the
end yields the empty buffer (`fetch.rs` lines 1218-1227). -/
def getPartialBytes (bytes : List Nat) (subrange : Option (Nat × Nat)) : List Nat :=
  match subrange with
  | none => bytes
  | some (start, len) =>
      if start ≤ bytes.length then
        (bytes.drop start).take (min (start + len) bytes.length - start)
      else []

/-- ASCII lowercasing of one character, leaving non-ASCII untouched. -/
def asciiLower (c : Char) : Char :=
  if 65 ≤ c.toNat ∧ c.toNat ≤ 90 then Char.ofNat (c.toNat + 32) else c

/-- `str::eq_ignore_ascii_case`. -/
def eqIgnoreAsciiCase (a b : String) : Bool :=
  a.data.map asciiLower == b.data.map asciiLower

/-- Bytes of an ASCII string (header names are ASCII, so code points
coincide with UTF-8 bytes). -/
def strBytes (s : String) : List Nat := s.data.map Char.toNat

/-- Whether a header name case-insensitively matches one of the requested
names (`fetch.rs` line 954). -/
def headerMatches (fields : List String) (name : String) : Bool :=
  fields.any (fun f => eqIgnoreAsciiCase name f)

/-- Synthesize the HEADER.FIELDS / HEADER.FIELDS.NOT block: keep (or, with
NOT, exclude) the headers whose name matches the requested name set,
emitting `name:` followed by the raw value bytes, and terminate the block
with a blank line (`fetch.rs` lines 947-969). -/
def renderHeaderFields (d : Decoded) (messageId : Nat) (headers : List MHeader)
    (isNot : Bool) (fields : List String) : List Nat :=
  (headers.foldl
    (fun acc h =>
      if (headerMatches fields h.name) != isNot then
        acc ++ strBytes h.name ++ [58]
          ++ ((d.sectionBytes messageId h.offsetStart h.offsetEnd).getD [])
      else acc) [])
    ++ [13, 10]

/-- Synthesize the MIME header block: headers classified as MIME-related or
whose name starts with `Content-` (`fetch.rs` lines 990-1012). -/
def renderMimeHeaders (d : Decoded) (messageId : Nat) (headers : List MHeader) :
    List Nat :=
  (headers.foldl
    (fun acc h =>
      if h.isMime || h.name.startsWith "Content-" then
        acc ++ strBytes h.name ++ [58]
          ++ ((d.sectionBytes messageId h.offsetStart h.offsetEnd).getD [])
      else acc) [])
    ++ [13, 10]

/-- Body-section path element (`imap_proto` `fetch::Section`): a 1-based
part number or a section discriminator. -/
inductive Section where
  | part (num : Nat)
  | header
  | headerFields (isNot : Bool) (fields : List String)
  | text
  | mime
deriving DecidableEq, Repr

/-- The section discriminators whose presence after a message node makes
`body_section` descend into the nested tree (`fetch.rs` lines 918-932):
a further part number, HEADER, HEADER.FIELDS[.NOT] or TEXT — not MIME. -/
def isDescentSection : Section → Bool
  | .part _ => true
  | .header => true
  | .headerFields _ _ => true
  | .text => true
  | .mime => false

/-- Select the next part for path segment `num` (`fetch.rs` lines 906-916):
the `num`-th child (1-based, saturating) when the node has children;
otherwise stay on the current node when the segment equals 1 and either it
is the last element of the whole section list or the node is a message
node; otherwise fail. -/
def selectPart (message : List MetaPart) (part : MetaPart) (num : Nat)
    (sectionNum total : Nat) : Option MetaPart :=
  match part.subParts with
  | some subIds => (subIds.get? (num - 1)).bind (fun pos => message.get? pos)
  | none =>
      if num = 1 ∧ (sectionNum = total - 1 ∨ part.isMessage) then some part
      else none

/-- The `body_section` traversal loop (`fetch.rs` lines 904-1031),
parameterised by the current tree level `message`, the raw-byte scope
`messageId`, the current node, the remaining section list, the index of its
head within the full section list, and the full list's length.  An
exhausted path returns body-start..body-end bytes of the current node. -/
def bodySectionGo (d : Decoded) (sub : Option (Nat × Nat)) (total : Nat) :
    List Section → List MetaPart → Nat → MetaPart → Nat → Option (List Nat)
  | [], _, messageId, part, _ =>
      (d.sectionBytes messageId part.offsetBody part.offsetEnd).map
        (getPartialBytes · sub)
  | s :: rest, message, messageId, part, sectionNum =>
    match s with
    | .part num =>
      match selectPart message part num sectionNum total with
      | none => none
      | some part' =>
        match part'.body, rest.head? with
        | .message nested, some next =>
            if isDescentSection next then
              bodySectionGo d sub total rest nested (messageId + 1) (rootPart nested)
                (sectionNum + 1)
            else
              bodySectionGo d sub total rest message messageId part' (sectionNum + 1)
        | _, _ =>
            bodySectionGo d sub total rest message messageId part' (sectionNum + 1)
    | .header =>
        (d.sectionBytes messageId part.offsetHeader part.offsetBody).map
          (getPartialBytes · sub)
    | .headerFields isNot fields =>
        some (getPartialBytes (renderHeaderFields d messageId part.headers isNot fields) sub)
    | .text =>
        (d.sectionBytes messageId part.offsetBody part.offsetEnd).map
          (getPartialBytes · sub)
    | .mime =>
        some (getPartialBytes (renderMimeHeaders d messageId part.headers) sub)

/-- `body_section` (`fetch.rs` lines 883-1032): an empty section list
returns header-start..body-end of the root; otherwise run the traversal
loop from the root. -/
def bodySection (d : Decoded) (contents : List MetaPart) (sections : List Section)
    (sub : Option (Nat × Nat)) : Option (List Nat) :=
  let part := rootPart contents
  if sections.isEmpty then
    (d.sectionBytes 0 part.offsetHeader part.offsetEnd).map (getPartialBytes · sub)
  else
    bodySectionGo d sub sections.length sections contents 0 part 0

/-- Decoded contents returned for a BINARY section: lossily-decoded text or
raw decoded bytes (`imap_proto` `fetch::BodyContents`). -/
inductive BodyContents where
  | text (bytes : List Nat)
  | bytes (bytes : List Nat)
deriving DecidableEq, Repr

/-- The `binary` traversal loop (`fetch.rs` lines 1040-1071): like the
body-section part traversal but over bare part numbers, tracking the child
position `partId` used for decoded-part lookups, and descending into a
nested message whenever any further segment follows. -/
def binaryNavigate (total : Nat) :
    List Nat → List MetaPart → Nat → MetaPart → Nat → Nat →
    Option (Nat × MetaPart × Nat)
  | [], _, messageId, part, partId, _ => some (messageId, part, partId)
  | num :: rest, message, messageId, part, _, sectionNum =>
    let sel : Option (MetaPart × Nat) :=
      match part.subParts with
      | some subIds =>
          ((subIds.get? (num - 1)).bind (fun pos => message.get? pos)).map
            (fun p => (p, num - 1))
      | none =>
          if num = 1 ∧ (sectionNum = total - 1 ∨ part.isMessage) then some (part, 0)
          else none
    match sel with
    | none => none
    | some (part', pid) =>
      match part'.body, rest with
      | .message nested, _ :: _ =>
          binaryNavigate total rest nested (messageId + 1) (rootPart nested) pid
            (sectionNum + 1)
      | _, _ =>
          binaryNavigate total rest message messageId part' pid (sectionNum + 1)

/-- `binary` (`fetch.rs` lines 1034-1127): traverse to the addressed part;
a failed traversal yields `ok none`, a part flagged with a
content-transfer-decoding failure yields an error, and otherwise the
decoded (or raw, for message/multipart nodes) bytes are returned, clamped
to the optional subrange. -/
def binaryFetch (d : Decoded) (contents : List MetaPart) (sections : List Nat)
    (sub : Option (Nat × Nat)) : Except Unit (Option BodyContents) :=
  match binaryNavigate sections.length sections contents 0 (rootPart contents) 0 0 with
  | none => .ok none
  | some (messageId, part, partId) =>
    if !part.isEncodingProblem then
      .ok (some (match part.body with
        | .text =>
            .text (getPartialBytes ((d.binBytes messageId partId).getD []) sub)
        | .html =>
            .text (getPartialBytes ((d.binBytes messageId partId).getD []) sub)
        | .binary =>
            .bytes (getPartialBytes ((d.binBytes messageId partId).getD []) sub)
        | .inlineBinary =>
            .bytes (getPartialBytes ((d.binBytes messageId partId).getD []) sub)
        | .message nested =>
            let p := rootPart nested
            .bytes (getPartialBytes
              ((d.sectionBytes messageId p.offsetHeader p.offsetEnd).getD []) sub)
        | .multipart _ =>
            .bytes (getPartialBytes
              ((d.sectionBytes messageId part.offsetHeader part.offsetEnd).getD []) sub)))
    else
      .error ()

/-- `raw_len` of a part (email crate metadata, modelled from the spec as
the length of the node's header-start..body-end byte range). -/
def MetaPart.rawLen (p : MetaPart) : Nat := p.offsetEnd - p.offsetHeader

/-- The `binary_size` traversal loop (`fetch.rs` lines 1129-1156): like
`binary` but resetting the child position on descent into a nested
message. -/
def binarySizeNavigate (total : Nat) :
    List Nat → List MetaPart → Nat → MetaPart → Nat → Nat →
    Option (Nat × MetaPart × Nat)
  | [], _, messageId, part, partId, _ => some (messageId, part, partId)
  | num :: rest, message, messageId, part, _, sectionNum =>
    let pid := num - 1
    let sel : Option MetaPart :=
      match part.subParts with
      | some subIds => (subIds.get? pid).bind (fun pos => message.get? pos)
      | none =>
          if num = 1 ∧ (sectionNum = total - 1 ∨ part.isMessage) then some part
          else none
    match sel with
    | none => none
    | some part' =>
      match part'.body, rest with
      | .message nested, _ :: _ =>
          binarySizeNavigate total rest nested (messageId + 1) (rootPart nested) 0
            (sectionNum + 1)
      | _, _ =>
          binarySizeNavigate total rest message messageId part' pid (sectionNum + 1)

/-- `binary_size` (`fetch.rs` lines 1129-1170): size of the decoded part,
or the raw length for message/multipart nodes. -/
def binarySize (d : Decoded) (contents : List MetaPart) (sections : List Nat) :
    Option Nat :=
  (binarySizeNavigate sections.length sections contents 0 (rootPart contents) 0 0).map
    (fun r =>
      match r.2.1.body with
      | .message nested => (rootPart nested).rawLen
      | .multipart _ => r.2.1.rawLen
      | _ => ((d.partBytes r.1 r.2.2).map List.length).getD 0)

end MailStore

namespace MailStore

/-- Requested FETCH attribute (`imap_proto` `fetch::Attribute`, with the
payloads the engine inspects). -/
inductive Attribute where
  | envelope
  | flags
  | internalDate
  | preview
  | rfc822Size
  | uid
  | rfc822
  | rfc822Header
  | rfc822Text
  | body
  | bodyStructure
  | bodySection (peek : Bool) (sections : List Section) (sub : Option (Nat × Nat))
  | binary (peek : Bool) (sections : List Nat) (sub : Option (Nat × Nat))
  | binarySize (sections : List Nat)
  | modSeq
  | emailId
  | threadId
deriving DecidableEq, Repr

/-- Stored metadata of one message (`ArchivedMessageMetadata`): the
structure tree, the content hash of the raw message blob, the raw header
bytes kept inline, and the scalar fields served without content fetch. -/
structure MetaMessage where
  contents : List MetaPart
  blobHash : Nat
  rawHeaders : List Nat
  receivedAt : Nat
  preview : List Nat
  size : Nat

/-- Materialization flags derived from the attribute list
(`fetch.rs` lines 237-274). -/
structure PropFlags where
  setSeenFlags : Bool
  needsThreadId : Bool
  needsBlobs : Bool
deriving DecidableEq, Repr

/-- Whether a body-section path starts with a header discriminator, in
which case the section is served from the inline raw headers and sets no
`\Seen` side effect (`fetch.rs` lines 243-246). -/
def startsWithHeaderSection : List Section → Bool
  | .header :: _ => true
  | .headerFields _ _ :: _ => true
  | _ => false

/-- Derive the materialization flags from the requested attributes
(`fetch.rs` lines 237-274): header-only body sections trigger nothing;
BODY/BODYSTRUCTURE/BINARY.SIZE need the blob; non-peek body/binary
sections and RFC822/RFC822.TEXT need the blob and, in a writable selected
mailbox, request the `\Seen` side effect; THREADID needs the thread id. -/
def computePropFlags (isSelect : Bool) (attrs : List Attribute) : PropFlags :=
  attrs.foldl
    (fun f a =>
      match a with
      | .bodySection peek sections _ =>
          if startsWithHeaderSection sections then f
          else { f with setSeenFlags := f.setSeenFlags || (isSelect && !peek),
                        needsBlobs := true }
      | .binary peek _ _ =>
          { f with setSeenFlags := f.setSeenFlags || (isSelect && !peek),
                   needsBlobs := true }
      | .body => { f with needsBlobs := true }
      | .bodyStructure => { f with needsBlobs := true }
      | .binarySize _ => { f with needsBlobs := true }
      | .rfc822 => { f with setSeenFlags := f.setSeenFlags || isSelect,
                            needsBlobs := true }
      | .rfc822Text => { f with setSeenFlags := f.setSeenFlags || isSelect,
                                needsBlobs := true }
      | .threadId => { f with needsThreadId := true }
      | _ => f)
    { setSeenFlags := false, needsThreadId := false, needsBlobs := false }

/-- UID-mode attribute adjustment (`fetch.rs` lines 289-295): an empty list
becomes FLAGS; otherwise UID is prepended when absent. -/
def adjustAttrs (isUid : Bool) (attrs : List Attribute) : List Attribute :=
  if isUid then
    if attrs.isEmpty then [Attribute.flags]
    else if !attrs.contains Attribute.uid then Attribute.uid :: attrs
    else attrs
  else attrs

/-- Environment of a FETCH command: point lookups of the store collaborator
(metadata, keywords, thread id, change id), blob retrieval by content hash,
the decode step producing the raw-byte view, the outcome of the one
conditional set-`\Seen` write per record, the modify-capability check and
whether the mailbox is selected writable. -/
structure FetchEnv where
  meta : Nat → Option MetaMessage
  keywordsOf : Nat → Option (List Keyword)
  threadIdOf : Nat → Option Nat
  cidOf : Nat → Option Nat
  blob : Nat → Option (List Nat)
  decode : List MetaPart → List Nat → Decoded
  seenWrite : Nat → WriteOutcome
  aclModify : Bool
  isSelect : Bool

/-- One FETCH data item as emitted per record (`fetch::DataItem`). -/
inductive FDataItem where
  | envelope
  | flags (keywords : List Keyword)
  | internalDate (date : Nat)
  | preview (contents : Option (List Nat))
  | rfc822Size (size : Nat)
  | uid (uid : Nat)
  | rfc822 (contents : List Nat)
  | rfc822Header (contents : List Nat)
  | rfc822Text (contents : List Nat)
  | body
  | bodyStructure
  | bodySection (sections : List Section) (origin : Option Nat) (contents : List Nat)
  | binary (sections : List Nat) (offset : Option Nat) (contents : BodyContents)
  | binarySize (sections : List Nat) (size : Nat)
  | modseq (modseq : Nat)
  | emailId (accountId id : Nat)
  | threadId (accountId threadId : Nat)
deriving DecidableEq, Repr

/-- Client-visible writes of a FETCH command: per-record untagged FETCH
responses and element-level UNKNOWN-CTE error responses naming the failed
section path and the message (uid or seqnum). -/
inductive Emit where
  | fetchItem (seqnum : Nat) (items : List FDataItem)
  | unknownCte (sections : List Nat) (msgId : Nat)
deriving DecidableEq, Repr

/-- Logged (never client-visible) store-inconsistency events. -/
inductive LogEvent where
  | metadataNotFound (id : Nat)
  | blobNotFound (id : Nat)
deriving DecidableEq, Repr

/-- Bounds-checked list slice, modelling Rust `slice::get(a..b)`. -/
def listSlice (l : List Nat) (a b : Nat) : Option (List Nat) :=
  if a ≤ b ∧ b ≤ l.length then some ((l.drop a).take (b - a)) else none

/-- Evaluate one requested attribute of one record
(one arm of `fetch.rs` lines 401-538), appending the produced data item (if
any) and any element-level error emission to the accumulator; a
binary-decode failure emits an UNKNOWN-CTE error naming the section path
and the message and skips only that attribute. -/
def runAttrsStep (env : FetchEnv) (accountId : Nat) (email : MetaMessage)
    (raw : List Nat) (decoded : Decoded) (kws : List Keyword)
    (setSeenFlag : Bool) (tid uid seqnum id : Nat) (isUid : Bool)
    (acc : List FDataItem × List Emit) (a : Attribute) :
    List FDataItem × List Emit :=
  match a with
      | .envelope => (acc.1 ++ [.envelope], acc.2)
      | .flags =>
          (acc.1 ++ [.flags (kws ++ (if setSeenFlag then [Keyword.seen] else []))],
           acc.2)
      | .internalDate => (acc.1 ++ [.internalDate email.receivedAt], acc.2)
      | .preview =>
          (acc.1 ++ [.preview (if !email.preview.isEmpty then some email.preview
                               else none)], acc.2)
      | .rfc822Size => (acc.1 ++ [.rfc822Size email.size], acc.2)
      | .uid => (acc.1 ++ [.uid uid], acc.2)
      | .rfc822 => (acc.1 ++ [.rfc822 raw], acc.2)
      | .rfc822Header =>
          let root := rootPart email.contents
          (match listSlice raw root.offsetHeader root.offsetBody with
           | some header => (acc.1 ++ [.rfc822Header header], acc.2)
           | none => acc)
      | .rfc822Text => (acc.1 ++ [.rfc822Text raw], acc.2)
      | .body => (acc.1 ++ [.body], acc.2)
      | .bodyStructure => (acc.1 ++ [.bodyStructure], acc.2)
      | .bodySection _ sections sub =>
          (match bodySection decoded email.contents sections sub with
           | some contents =>
               (acc.1 ++ [.bodySection sections (sub.map Prod.fst) contents], acc.2)
           | none => acc)
      | .binary _ sections sub =>
          (match binaryFetch decoded email.contents sections sub with
           | .ok (some contents) =>
               (acc.1 ++ [.binary sections (sub.map Prod.fst) contents], acc.2)
           | .ok none => acc
           | .error _ =>
               (acc.1, acc.2 ++ [.unknownCte sections (if isUid then uid else seqnum)]))
      | .binarySize sections =>
          (match binarySize decoded email.contents sections with
           | some size => (acc.1 ++ [.binarySize sections size], acc.2)
           | none => acc)
      | .modSeq =>
          (match env.cidOf id with
           | some m => (acc.1 ++ [.modseq (m + 1)], acc.2)
           | none => acc)
      | .emailId => (acc.1 ++ [.emailId accountId id], acc.2)
      | .threadId => (acc.1 ++ [.threadId accountId tid], acc.2)

/-- Evaluate the requested attributes of one record
(`fetch.rs` lines 401-538), producing the data items in request order and
the element-level error emissions raised along the way. -/
def runAttrs (env : FetchEnv) (accountId : Nat) (email : MetaMessage)
    (raw : List Nat) (decoded : Decoded) (kws : List Keyword)
    (setSeenFlag : Bool) (tid uid seqnum id : Nat) (isUid : Bool)
    (attrs : List Attribute) : List FDataItem × List Emit :=
  attrs.foldl (runAttrsStep env accountId email raw decoded kws setSeenFlag
    tid uid seqnum id isUid) ([], [])

/-- Accumulator of the FETCH record loop: emitted client writes, logged
events, and the records queued for the set-`\Seen` side-effect phase. -/
structure FetchAcc where
  emits : List Emit
  logs : List LogEvent
  setSeenIds : List (Nat × Nat × List Keyword)

/-- Process one resolved record (`fetch.rs` lines 310-563): missing
metadata/keywords or a missing blob skips the record entirely (logged, no
client-visible output); a missing thread id skips silently; otherwise the
attributes are evaluated, a FLAGS item is appended when `\Seen` will be set
and FLAGS was not requested, exactly one untagged FETCH response is
emitted, and a record whose `\Seen` must be set is queued. -/
def processRecord (env : FetchEnv) (accountId : Nat) (attrs : List Attribute)
    (pf : PropFlags) (setSeenFlags isUid : Bool) (seqnum uid id : Nat)
    (acc : FetchAcc) : FetchAcc :=
  match env.meta id, env.keywordsOf id with
  | some email, some kws =>
      (match (if pf.needsBlobs then env.blob email.blobHash
              else some email.rawHeaders) with
       | none => { acc with logs := acc.logs ++ [.blobNotFound id] }
       | some raw =>
           let decoded := env.decode email.contents raw
           let setSeenFlag := setSeenFlags && !kws.contains Keyword.seen
           (match (if pf.needsThreadId || setSeenFlag then env.threadIdOf id
                   else some 0) with
            | none => acc
            | some tid =>
                let r := runAttrs env accountId email raw decoded kws setSeenFlag
                  tid uid seqnum id isUid attrs
                let items :=
                  if setSeenFlag && !attrs.contains Attribute.flags then
                    r.1 ++ [.flags (kws ++ [Keyword.seen])]
                  else r.1
                { acc with
                  emits := acc.emits ++ r.2 ++ [.fetchItem seqnum items],
                  setSeenIds := acc.setSeenIds
                    ++ (if setSeenFlag then [(tid, id, kws)] else []) }))
  | _, _ => { acc with logs := acc.logs ++ [.metadataNotFound id] }

/-- The set-`\Seen` side-effect phase (`fetch.rs` lines 571-603): for each
queued record, one conditional write asserting the keywords read earlier;
success logs an Update entry, an assertion failure is silently dropped
(no retry, no entry, no client output), any other store error aborts the
command.  The trace records each attempted write. -/
def runSeenPhase (env : FetchEnv) :
    List (Nat × Nat × List Keyword) → ChangeLog → List Nat →
    Except Unit (ChangeLog × List Nat)
  | [], cl, attempts => .ok (cl, attempts)
  | (_, id, _) :: rest, cl, attempts =>
    match env.seenWrite id with
    | .ok => runSeenPhase env rest (cl.logUpdate emailCollection id) (attempts ++ [id])
    | .assertFail => runSeenPhase env rest cl (attempts ++ [id])
    | .fatal => .error ()

/-- Final result of the FETCH record-processing and side-effect phases. -/
structure FetchResult where
  emits : List Emit
  logs : List LogEvent
  seenAttempts : List Nat
  committed : Option (Nat × List ChangeEntry)
  broadcast : Bool
  counter : Nat
  completedOk : Bool

/-- The FETCH record-processing phase (`fetch.rs` lines 237-644): derive
the materialization flags, drop the `\Seen` side effect without the
modify capability, adjust the attribute list for UID mode, sort the
resolved records by sequence number, process them in order, then run the
set-`\Seen` phase — beginning a change batch (consuming one counter value)
only when at least one record qualified, committing and broadcasting only
when at least one side-effect write succeeded — and complete with a tagged
OK. -/
def runFetch (env : FetchEnv) (accountId counter : Nat) (attrs0 : List Attribute)
    (isUid : Bool) (ids : List (Nat × ImapId)) : Except Unit FetchResult :=
  let pf := computePropFlags env.isSelect attrs0
  let setSeenFlags := pf.setSeenFlags && env.aclModify
  let attrs := adjustAttrs isUid attrs0
  let sorted := List.insertionSort (fun a b => a.1 ≤ b.1)
    (ids.map (fun p => (p.2.seqnum, p.2.uid, p.1)))
  let acc := sorted.foldl
    (fun acc t => processRecord env accountId attrs pf setSeenFlags isUid
      t.1 t.2.1 t.2.2 acc)
    { emits := [], logs := [], setSeenIds := [] }
  if acc.setSeenIds.isEmpty then
    .ok { emits := acc.emits, logs := acc.logs, seenAttempts := [],
          committed := none, broadcast := false, counter := counter,
          completedOk := true }
  else
    let cid := counter
    match runSeenPhase env acc.setSeenIds { changeId := some cid, changes := [] } [] with
    | .error e => .error e
    | .ok (cl, attempts) =>
        if cl.isEmpty then
          .ok { emits := acc.emits, logs := acc.logs, seenAttempts := attempts,
                committed := none, broadcast := false, counter := counter + 1,
                completedOk := true }
        else
          .ok { emits := acc.emits, logs := acc.logs, seenAttempts := attempts,
                committed := some (cid, cl.changes), broadcast := true,
                counter := counter + 1, completedOk := true }

end MailStore

namespace MailStore

/-- The read trace produced by `n + 1` consecutive loop iterations on one
record, starting at attempt `tryCount`: attempts `tryCount` up to
`tryCount + n` inclusive. -/
def conflictTrace (id tryCount : Nat) : Nat → List (Nat × Nat)
  | 0 => [(id, tryCount)]
  | n + 1 => (id, tryCount) :: conflictTrace id (tryCount + 1) n

/-- Pure part-number traversal extracted from `body_section`
(`fetch.rs` lines 904-933): the tree level, scope id and node reached by a
path of part segments, with the same selection and descent rules as the
full loop. -/
def navigatePath : List Section → List MetaPart → Nat → MetaPart → Nat → Nat →
    Option (Nat × MetaPart)
  | [], _, messageId, part, _, _ => some (messageId, part)
  | s :: rest, message, messageId, part, sectionNum, total =>
    match s with
    | .part num =>
      match selectPart message part num sectionNum total with
      | none => none
      | some part' =>
        match part'.body, rest.head? with
        | .message nested, some next =>
            if isDescentSection next then
              navigatePath rest nested (messageId + 1) (rootPart nested) (sectionNum + 1)
                total
            else
              navigatePath rest message messageId part' (sectionNum + 1) total
        | _, _ => navigatePath rest message messageId part' (sectionNum + 1) total
    | _ => none

/-- Render every header of a list as `name:` plus raw value bytes, in
order (the header block without any filtering and without the terminating
blank line). -/
def renderHeaderList (d : Decoded) (messageId : Nat) (hs : List MHeader) : List Nat :=
  hs.foldl
    (fun acc h =>
      acc ++ strBytes h.name ++ [58]
        ++ ((d.sectionBytes messageId h.offsetStart h.offsetEnd).getD []))
    []

/-- The claim's selection rule, following the spec's words (§4.4): each
segment selects the Nth child of a node with children, and a node without
children is stayed on whenever the segment is exactly 1 — with no condition
on the segment's position or on the node being a message node.  Stated for
comparison with `selectPart`, the rule the source implements. -/
def selectPartSpec (message : List MetaPart) (part : MetaPart) (num : Nat) :
    Option MetaPart :=
  match part.subParts with
  | some subIds => (subIds.get? (num - 1)).bind (fun pos => message.get? pos)
  | none => if num = 1 then some part else none

/-- Sequence numbers of the untagged FETCH responses of an emission
stream, in emission order. -/
def emittedSeqs (emits : List Emit) : List Nat :=
  emits.filterMap (fun e =>
    match e with
    | .fetchItem s _ => some s
    | _ => none)

end MailStore

namespace MailStore

lemma storeRecordGo_skip {env maxR args ctx id imapId t fuel} {st : StoreState}
    (h : st.db id = none) :
    storeRecordGo env maxR args ctx id imapId t fuel st =
      .ok { st with reads := st.reads ++ [(id, t)] } := by
  unfold storeRecordGo
  simp [h]

lemma storeRecordGo_noop {env maxR args ctx id imapId t fuel} {st : StoreState}
    {data : MessageData} {tid : Nat} (h : st.db id = some (data, tid))
    (h2 : (applyOperation args.operation args.keywords data).1.keywords = data.keywords) :
    storeRecordGo env maxR args ctx id imapId t fuel st =
      .ok { st with reads := st.reads ++ [(id, t)] } := by
  unfold storeRecordGo
  simp [h, MessageData.hasKeywordChanges, h2]

end MailStore

namespace MailStore

lemma ensureChangeId_db (st : StoreState) : st.ensureChangeId.2.db = st.db := by
  unfold StoreState.ensureChangeId StoreState.assignChangeId
  cases st.changelog.changeId <;> rfl

lemma ensureChangeId_items (st : StoreState) : st.ensureChangeId.2.items = st.items := by
  unfold StoreState.ensureChangeId StoreState.assignChangeId
  cases st.changelog.changeId <;> rfl

lemma ensureChangeId_changes (st : StoreState) :
    st.ensureChangeId.2.changelog.changes = st.changelog.changes := by
  unfold StoreState.ensureChangeId StoreState.assignChangeId
  cases st.changelog.changeId <;> rfl

lemma ensureChangeId_failed (st : StoreState) :
    st.ensureChangeId.2.failed = st.failed := by
  unfold StoreState.ensureChangeId StoreState.assignChangeId
  cases st.changelog.changeId <;> rfl

lemma ensureChangeId_reads (st : StoreState) :
    st.ensureChangeId.2.reads = st.reads := by
  unfold StoreState.ensureChangeId StoreState.assignChangeId
  cases st.changelog.changeId <;> rfl

lemma markMailboxes_db (st : StoreState) (mbs : List Nat) :
    (st.markMailboxes mbs).db = st.db := rfl

lemma markMailboxes_items (st : StoreState) (mbs : List Nat) :
    (st.markMailboxes mbs).items = st.items := rfl

lemma markMailboxes_changes (st : StoreState) (mbs : List Nat) :
    (st.markMailboxes mbs).changelog = st.changelog := rfl

lemma markMailboxes_failed (st : StoreState) (mbs : List Nat) :
    (st.markMailboxes mbs).failed = st.failed := rfl

lemma markMailboxes_reads (st : StoreState) (mbs : List Nat) :
    (st.markMailboxes mbs).reads = st.reads := rfl

lemma storeRecordGo_write_ok {env maxR args ctx id imapId t fuel} {st : StoreState}
    {data : MessageData} {tid : Nat}
    (h : st.db id = some (data, tid))
    (hg : (applyOperation args.operation args.keywords data).1.keywords ≠ data.keywords)
    (hw : env.write id t = WriteOutcome.ok) :
    storeRecordGo env maxR args ctx id imapId t fuel st =
      (let str : StoreState := { st with reads := st.reads ++ [(id, t)] }
       let a := str.ensureChangeId
       let newData : MessageData :=
         { (applyOperation args.operation args.keywords data).1 with changeId := a.1 }
       let st2 : StoreState :=
         if (applyOperation args.operation args.keywords data).2 then
           a.2.markMailboxes newData.mailboxes
         else a.2
       .ok { st2 with
             db := fun i => if i = id then some (newData, tid) else st2.db i,
             changelog := st2.changelog.logUpdate emailCollection id,
             items := st2.items
               ++ successItems args ctx imapId newData.keywords (a.1 + 1) }) := by
  unfold storeRecordGo
  simp [h, MessageData.hasKeywordChanges, hg, hw]

end MailStore

namespace MailStore

lemma storeRecordGo_write_fatal {env maxR args ctx id imapId t fuel} {st : StoreState}
    {data : MessageData} {tid : Nat}
    (h : st.db id = some (data, tid))
    (hg : (applyOperation args.operation args.keywords data).1.keywords ≠ data.keywords)
    (hw : env.write id t = WriteOutcome.fatal) :
    storeRecordGo env maxR args ctx id imapId t fuel st = .error () := by
  unfold storeRecordGo
  simp [h, MessageData.hasKeywordChanges, hg, hw]

lemma storeRecord_set_post {env : StoreEnv} {maxR : Nat} {ks : List Keyword}
    {silent : Bool} {ctx : StoreCtx} {id : Nat} {imapId : ImapId}
    {st st' : StoreState}
    (hc : ∀ i t, env.write i t ≠ WriteOutcome.assertFail)
    (h : storeRecord env maxR ⟨Operation.set, ks, silent⟩ ctx id imapId st = .ok st') :
    (∀ j, j ≠ id → st'.db j = st.db j) ∧
    (∀ d t, st'.db id = some (d, t) → d.keywords = ks) := by
  unfold storeRecord at h
  cases hdb : st.db id with
  | none =>
    rw [storeRecordGo_skip hdb] at h
    obtain rfl : _ = st' := Except.ok.inj h
    exact ⟨fun j _ => rfl, fun d t hd => by simp [hdb] at hd⟩
  | some pr =>
    obtain ⟨data, tid⟩ := pr
    by_cases hg : (applyOperation Operation.set ks data).1.keywords = data.keywords
    · rw [storeRecordGo_noop hdb hg] at h
      obtain rfl : _ = st' := Except.ok.inj h
      refine ⟨fun j _ => rfl, fun d t hd => ?_⟩
      have : data = d := by simp [hdb] at hd; exact hd.1
      subst this
      exact hg.symm
    · cases hw : env.write id 0 with
      | assertFail => exact absurd hw (hc id 0)
      | fatal =>
        rw [storeRecordGo_write_fatal hdb hg hw] at h
        cases h
      | ok =>
        rw [storeRecordGo_write_ok hdb hg hw] at h
        obtain rfl : _ = st' := Except.ok.inj h
        constructor
        · intro j hj
          show (if j = id then _ else _) = st.db j
          rw [if_neg hj]
          split <;> simp [markMailboxes_db, ensureChangeId_db]
        · intro d t hd
          have hdd : (if id = id then some (_, tid) else _) = some (d, t) := hd
          rw [if_pos rfl] at hdd
          obtain ⟨h1, -⟩ := Prod.mk.injEq .. ▸ Option.some.inj hdd
          subst h1
          rfl

end MailStore

namespace MailStore

lemma storeRecords_set_post {env : StoreEnv} {maxR : Nat} {ks : List Keyword}
    {silent : Bool} {ctx : StoreCtx} {ids : List (Nat × ImapId)}
    {st st' : StoreState}
    (hc : ∀ i t, env.write i t ≠ WriteOutcome.assertFail)
    (h : storeRecords env maxR ⟨Operation.set, ks, silent⟩ ctx ids st = .ok st') :
    (∀ j, (∀ p ∈ ids, p.1 ≠ j) → st'.db j = st.db j) ∧
    (∀ p ∈ ids, ∀ d t, st'.db p.1 = some (d, t) → d.keywords = ks) := by
  induction ids generalizing st with
  | nil =>
    obtain rfl : st = st' := Except.ok.inj h
    exact ⟨fun _ _ => rfl, fun p hp => absurd hp (List.not_mem_nil p)⟩
  | cons q rest ih =>
    obtain ⟨qid, qimap⟩ := q
    unfold storeRecords at h
    cases hr : storeRecord env maxR ⟨Operation.set, ks, silent⟩ ctx qid qimap st with
    | error e => rw [hr] at h; cases h
    | ok st1 =>
      rw [hr] at h
      obtain ⟨hframe1, hpost1⟩ := storeRecord_set_post hc hr
      obtain ⟨hframe2, hpost2⟩ := ih h
      constructor
      · intro j hj
        rw [hframe2 j (fun p hp => hj p (List.mem_cons_of_mem _ hp)),
          hframe1 j (Ne.symm (hj (qid, qimap) (List.mem_cons_self _ _)))]
      · intro p hp d t hd
        rcases List.mem_cons.mp hp with hq | hrest
        · subst hq
          by_cases hmem : ∀ r ∈ rest, r.1 ≠ qid
          · exact hpost1 d t ((hframe2 qid hmem) ▸ hd)
          · push_neg at hmem
            obtain ⟨r, hrmem, hreq⟩ := hmem
            exact hpost2 r hrmem d t (by rw [hreq]; exact hd)
        · exact hpost2 p hrest d t hd

lemma storeRecords_noop {env : StoreEnv} {maxR : Nat} {ks : List Keyword}
    {silent : Bool} {ctx : StoreCtx} {ids : List (Nat × ImapId)} {st : StoreState}
    (hinv : ∀ p ∈ ids, ∀ d t, st.db p.1 = some (d, t) → d.keywords = ks) :
    ∃ st', storeRecords env maxR ⟨Operation.set, ks, silent⟩ ctx ids st = .ok st' ∧
      st'.db = st.db ∧ st'.counter = st.counter ∧ st'.changelog = st.changelog ∧
      st'.changedMailboxes = st.changedMailboxes ∧ st'.items = st.items ∧
      st'.failed = st.failed := by
  induction ids generalizing st with
  | nil => exact ⟨st, rfl, rfl, rfl, rfl, rfl, rfl, rfl⟩
  | cons q rest ih =>
    obtain ⟨qid, qimap⟩ := q
    have hstep : storeRecord env maxR ⟨Operation.set, ks, silent⟩ ctx qid qimap st =
        .ok { st with reads := st.reads ++ [(qid, 0)] } := by
      unfold storeRecord
      cases hdb : st.db qid with
      | none => exact storeRecordGo_skip hdb
      | some pr =>
        obtain ⟨data, tid⟩ := pr
        have hkeq : data.keywords = ks :=
          hinv (qid, qimap) (List.mem_cons_self _ _) data tid hdb
        exact storeRecordGo_noop hdb
          (by simp [applyOperation, MessageData.setKeywords, hkeq])
    obtain ⟨st', hrec, hdb', hc', hcl', hmb', hit', hf'⟩ :=
      @ih { st with reads := st.reads ++ [(qid, 0)] }
        (fun p hp d t hd => hinv p (List.mem_cons_of_mem _ hp) d t hd)
    refine ⟨st', ?_, hdb', hc', hcl', hmb', hit', hf'⟩
    unfold storeRecords
    rw [hstep]
    exact hrec

end MailStore

namespace MailStore

lemma runStore_set_noop {env : StoreEnv} {maxR : Nat} {ks : List Keyword}
    {silent : Bool} {ctx : StoreCtx} {ids : List (Nat × ImapId)}
    {db : Nat → Option (MessageData × Nat)} {c0 : Nat}
    (hinv : ∀ p ∈ ids, ∀ d t, db p.1 = some (d, t) → d.keywords = ks) :
    (runStore env maxR ⟨Operation.set, ks, silent⟩ ctx ids
        (initStoreState db c0)).map
      (fun r => (r.committed, r.broadcast, r.state.counter, r.state.items)) =
      .ok (none, none, c0, []) := by
  obtain ⟨st', hrec, hdb', hc', hcl', hmb', hit', hf'⟩ :=
    @storeRecords_noop env maxR ks silent ctx ids (initStoreState db c0) hinv
  unfold runStore
  rw [hrec]
  have hmb0 : st'.changedMailboxes = [] := hmb'
  have hcl0 : st'.changelog = ChangeLog.new := hcl'
  simp [hmb0, hcl0, ChangeLog.isEmpty, ChangeLog.new, hc', hit', initStoreState,
    Except.map]

lemma runStore_set_post {env : StoreEnv} {maxR : Nat} {ks : List Keyword}
    {silent : Bool} {ctx : StoreCtx} {ids : List (Nat × ImapId)}
    {db : Nat → Option (MessageData × Nat)} {c0 : Nat} {r1 : StoreResult}
    (hc : ∀ i t, env.write i t ≠ WriteOutcome.assertFail)
    (h : runStore env maxR ⟨Operation.set, ks, silent⟩ ctx ids
        (initStoreState db c0) = .ok r1) :
    ∀ p ∈ ids, ∀ d t, r1.state.db p.1 = some (d, t) → d.keywords = ks := by
  unfold runStore at h
  cases hrec : storeRecords env maxR ⟨Operation.set, ks, silent⟩ ctx ids
      (initStoreState db c0) with
  | error e => rw [hrec] at h; cases h
  | ok st' =>
    rw [hrec] at h
    have hpost := (storeRecords_set_post hc hrec).2
    have hdb1 : r1.state.db = st'.db := by
      dsimp only at h
      split at h <;>
        exact congrArg (fun r => r.state.db) (Except.ok.inj h).symm
    intro p hp d t hd
    exact hpost p hp d t (hdb1 ▸ hd)

/-- C1: for every record processed by a STORE command and every label
operation Set/Add/Clear, if the Label Set computed by the operation equals
the record's current Label Set, the loop performs no store write and
produces no change-log entry for that record — the command state is
returned unchanged apart from the read trace; and applying `Set(L)` twice
in a row with no interleaving mutation (no CAS rejection) yields no second
change-log entry: after a first `Set(L)` command every surviving record of
the id set carries exactly the Label Set `L`, and a `Set(L)` command over
records all carrying `L` commits nothing, consumes no counter value, emits
no response items and broadcasts no state change. -/
theorem store_noop_and_set_idempotent :
    (∀ (env : StoreEnv) (maxR : Nat) (args : StoreArgs) (ctx : StoreCtx)
        (id : Nat) (imapId : ImapId) (st : StoreState) (data : MessageData)
        (tid : Nat),
        st.db id = some (data, tid) →
        (applyOperation args.operation args.keywords data).1.keywords = data.keywords →
        storeRecord env maxR args ctx id imapId st =
          .ok { st with reads := st.reads ++ [(id, 0)] })
    ∧
    (∀ (env : StoreEnv) (maxR : Nat) (ks : List Keyword) (silent : Bool)
        (ctx : StoreCtx) (ids : List (Nat × ImapId))
        (db : Nat → Option (MessageData × Nat)) (c0 : Nat) (r1 : StoreResult),
        (∀ i t, env.write i t ≠ WriteOutcome.assertFail) →
        runStore env maxR ⟨Operation.set, ks, silent⟩ ctx ids
          (initStoreState db c0) = .ok r1 →
        ∀ p ∈ ids, ∀ d t, r1.state.db p.1 = some (d, t) → d.keywords = ks)
    ∧
    (∀ (env : StoreEnv) (maxR : Nat) (ks : List Keyword) (silent : Bool)
        (ctx : StoreCtx) (ids : List (Nat × ImapId))
        (db : Nat → Option (MessageData × Nat)) (c0 : Nat),
        (∀ p ∈ ids, ∀ d t, db p.1 = some (d, t) → d.keywords = ks) →
        (runStore env maxR ⟨Operation.set, ks, silent⟩ ctx ids
            (initStoreState db c0)).map
          (fun r => (r.committed, r.broadcast, r.state.counter, r.state.items)) =
          .ok (none, none, c0, [])) := by
  refine ⟨?_, ?_, ?_⟩
  · intro env maxR args ctx id imapId st data tid h1 h2
    exact storeRecordGo_noop h1 h2
  · intro env maxR ks silent ctx ids db c0 r1 hc h
    exact runStore_set_post hc h
  · intro env maxR ks silent ctx ids db c0 hinv
    exact runStore_set_noop hinv

end MailStore

namespace MailStore

/-- Witness for C1: a record whose Label Set already equals the one a Set
operation computes is processed without any state change, and the Set
command re-run after a first successful Set (same labels, no interleaving
mutation) commits nothing, keeps the counter and emits nothing. -/
theorem store_noop_and_set_idempotent_witness :
    (storeRecord ⟨fun _ _ => WriteOutcome.ok⟩ 3
        ⟨Operation.set, [Keyword.other 0], true⟩ ⟨false, false⟩ 1 ⟨1, 1⟩
        (initStoreState
          (fun i => if i = 1 then some (⟨[Keyword.other 0], [], 0⟩, 7) else none) 0) =
      .ok { initStoreState
              (fun i => if i = 1 then some (⟨[Keyword.other 0], [], 0⟩, 7) else none) 0
            with reads := [(1, 0)] })
    ∧
    ((runStore ⟨fun _ _ => WriteOutcome.ok⟩ 3
        ⟨Operation.set, [Keyword.other 1], true⟩ ⟨false, false⟩ [(1, ⟨1, 1⟩)]
        (initStoreState
          (fun i =>
            if i = 1 then some (⟨[Keyword.other 1], [], 0⟩, 7)
            else (fun j => if j = 1 then some (⟨[Keyword.other 0], [], 0⟩, 7)
                  else none) i) 1)).map
      (fun r => (r.committed, r.broadcast, r.state.counter, r.state.items)) =
      .ok (none, none, 1, [])) := by
  constructor
  · exact store_noop_and_set_idempotent.1 ⟨fun _ _ => WriteOutcome.ok⟩ 3
      ⟨Operation.set, [Keyword.other 0], true⟩ ⟨false, false⟩ 1 ⟨1, 1⟩ _
      ⟨[Keyword.other 0], [], 0⟩ 7 rfl rfl
  · have h1 : runStore ⟨fun _ _ => WriteOutcome.ok⟩ 3
        ⟨Operation.set, [Keyword.other 1], true⟩ ⟨false, false⟩ [(1, ⟨1, 1⟩)]
        (initStoreState
          (fun i => if i = 1 then some (⟨[Keyword.other 0], [], 0⟩, 7) else none) 0) =
        .ok { state :=
                { db := fun i =>
                    if i = 1 then some (⟨[Keyword.other 1], [], 0⟩, 7)
                    else (fun j => if j = 1 then some (⟨[Keyword.other 0], [], 0⟩, 7)
                          else none) i,
                  counter := 1,
                  changelog := ⟨some 0, [ChangeEntry.update emailCollection 1]⟩,
                  changedMailboxes := [], items := [], failed := false,
                  reads := [(1, 0)] },
              committed := some (0, [ChangeEntry.update emailCollection 1]),
              broadcast := some false } := rfl
    have hinv := store_noop_and_set_idempotent.2.1 ⟨fun _ _ => WriteOutcome.ok⟩ 3
      [Keyword.other 1] true ⟨false, false⟩ [(1, ⟨1, 1⟩)]
      (fun i => if i = 1 then some (⟨[Keyword.other 0], [], 0⟩, 7) else none) 0 _
      (fun i t h => WriteOutcome.noConfusion h) h1
    exact store_noop_and_set_idempotent.2.2 ⟨fun _ _ => WriteOutcome.ok⟩ 3
      [Keyword.other 1] true ⟨false, false⟩ [(1, ⟨1, 1⟩)] _ 1 hinv

end MailStore

namespace MailStore

lemma foldl_markAdd_contains :
    ∀ (M acc : List Nat) (m : Nat), (m ∈ M ∨ acc.contains m = true) →
      (M.foldl (fun acc m => if acc.contains m then acc else acc ++ [m]) acc).contains m
        = true := by
  intro M
  induction M with
  | nil =>
    intro acc m hm
    rcases hm with h | h
    · exact absurd h (List.not_mem_nil m)
    · exact h
  | cons x M ih =>
    intro acc m hm
    have hstep : ((if acc.contains x then acc else acc ++ [x]).contains m) = true ∨
        m ∈ M := by
      rcases hm with h | h
      · rcases List.mem_cons.mp h with h | h
        · subst h
          split
          · left; assumption
          · left; simp
        · right; exact h
      · left
        split
        · exact h
        · have hm : m ∈ acc := by simpa using h
          simp [List.mem_append, hm]
    simp only [List.foldl_cons]
    rcases hstep with h | h
    · exact ih _ m (Or.inr h)
    · exact ih _ m (Or.inl h)

lemma foldl_markAdd_noop :
    ∀ (M acc : List Nat), (∀ m ∈ M, acc.contains m = true) →
      M.foldl (fun acc m => if acc.contains m then acc else acc ++ [m]) acc = acc := by
  intro M
  induction M with
  | nil => intro acc _; rfl
  | cons x M ih =>
    intro acc h
    simp only [List.foldl_cons, h x (List.mem_cons_self _ _), if_true]
    exact ih acc (fun m hm => h m (List.mem_cons_of_mem _ hm))

lemma markMailboxes_noop {st : StoreState} {M : List Nat}
    (h : ∀ m ∈ M, st.changedMailboxes.contains m = true) :
    st.markMailboxes M = st := by
  show { st with changedMailboxes := _ } = st
  rw [foldl_markAdd_noop M st.changedMailboxes h]

lemma markMailboxes_contains {st : StoreState} {M : List Nat} {m : Nat}
    (h : m ∈ M) : (st.markMailboxes M).changedMailboxes.contains m = true :=
  foldl_markAdd_contains M st.changedMailboxes m (Or.inl h)

lemma ensureChangeId_of_some {st : StoreState} {cid : Nat}
    (h : st.changelog.changeId = some cid) : st.ensureChangeId = (cid, st) := by
  unfold StoreState.ensureChangeId
  rw [h]

end MailStore

namespace MailStore

lemma storeRecordGo_conflict_step {env : StoreEnv} {maxR : Nat} {args : StoreArgs}
    {ctx : StoreCtx} {id : Nat} {imapId : ImapId} {t fuel : Nat} {st : StoreState}
    {data : MessageData} {tid : Nat}
    (hdb : st.db id = some (data, tid))
    (hg : (applyOperation args.operation args.keywords data).1.keywords ≠ data.keywords)
    (hw : env.write id t = WriteOutcome.assertFail) :
    storeRecordGo env maxR args ctx id imapId t fuel st =
      (let str : StoreState := { st with reads := st.reads ++ [(id, t)] }
       let a := str.ensureChangeId
       let st2 : StoreState :=
         if (applyOperation args.operation args.keywords data).2 then
           a.2.markMailboxes (applyOperation args.operation args.keywords data).1.mailboxes
         else a.2
       match fuel with
       | 0 => .ok { st2 with failed := true }
       | fuel' + 1 => storeRecordGo env maxR args ctx id imapId (t + 1) fuel' st2) := by
  cases fuel with
  | zero =>
    unfold storeRecordGo
    simp [hdb, MessageData.hasKeywordChanges, hg, hw]
  | succ fuel' =>
    conv_lhs => unfold storeRecordGo
    simp [hdb, MessageData.hasKeywordChanges, hg, hw]

lemma storeRecordGo_conflict_inner {env : StoreEnv} {maxR : Nat} {args : StoreArgs}
    {ctx : StoreCtx} {id : Nat} {imapId : ImapId} {data : MessageData} {tid cid : Nat}
    (hg : (applyOperation args.operation args.keywords data).1.keywords ≠ data.keywords)
    (hconf : ∀ t, env.write id t = WriteOutcome.assertFail) :
    ∀ (fuel t : Nat) (st : StoreState),
      st.db id = some (data, tid) →
      st.changelog.changeId = some cid →
      ((applyOperation args.operation args.keywords data).2 = true →
        ∀ m ∈ (applyOperation args.operation args.keywords data).1.mailboxes,
          st.changedMailboxes.contains m = true) →
      storeRecordGo env maxR args ctx id imapId t fuel st =
        .ok { st with failed := true, reads := st.reads ++ conflictTrace id t fuel } := by
  intro fuel
  induction fuel with
  | zero =>
    intro t st hdb hcid hmb
    rw [storeRecordGo_conflict_step hdb hg (hconf t)]
    dsimp only
    rw [ensureChangeId_of_some (by exact hcid)]
    dsimp only
    split
    · rename_i hsc
      rw [@markMailboxes_noop { st with reads := st.reads ++ [(id, t)] }
        ((applyOperation args.operation args.keywords data).1.mailboxes)
        (fun m hm => hmb hsc m hm)]
      simp [conflictTrace]
    · simp [conflictTrace]
  | succ fuel' ih =>
    intro t st hdb hcid hmb
    rw [storeRecordGo_conflict_step hdb hg (hconf t)]
    dsimp only
    rw [ensureChangeId_of_some (by exact hcid)]
    dsimp only
    split
    · rename_i hsc
      rw [@markMailboxes_noop { st with reads := st.reads ++ [(id, t)] }
        ((applyOperation args.operation args.keywords data).1.mailboxes)
        (fun m hm => hmb hsc m hm)]
      rw [ih (t + 1) { st with reads := st.reads ++ [(id, t)] } hdb hcid hmb]
      simp [conflictTrace, List.append_assoc]
    · rw [ih (t + 1) { st with reads := st.reads ++ [(id, t)] } hdb hcid hmb]
      simp [conflictTrace, List.append_assoc]

end MailStore

namespace MailStore

lemma ensureChangeId_changeId (st : StoreState) :
    st.ensureChangeId.2.changelog.changeId = some st.ensureChangeId.1 := by
  unfold StoreState.ensureChangeId StoreState.assignChangeId
  cases h : st.changelog.changeId <;> simp [h]

lemma ensureChangeId_counter_le (st : StoreState) :
    st.ensureChangeId.2.counter ≤ st.counter + 1 := by
  unfold StoreState.ensureChangeId StoreState.assignChangeId
  cases h : st.changelog.changeId <;> simp [h]

lemma markMailboxes_counter (st : StoreState) (mbs : List Nat) :
    (st.markMailboxes mbs).counter = st.counter := rfl

lemma storeRecord_conflict {env : StoreEnv} {maxR : Nat} {args : StoreArgs}
    {ctx : StoreCtx} {id : Nat} {imapId : ImapId} {st : StoreState}
    {data : MessageData} {tid : Nat}
    (hdb : st.db id = some (data, tid))
    (hg : (applyOperation args.operation args.keywords data).1.keywords ≠ data.keywords)
    (hconf : ∀ t, env.write id t = WriteOutcome.assertFail) :
    ∃ st', storeRecord env maxR args ctx id imapId st = .ok st' ∧
      st'.failed = true ∧ st'.db = st.db ∧ st'.items = st.items ∧
      st'.changelog.changes = st.changelog.changes ∧
      st'.reads = st.reads ++ conflictTrace id 0 maxR ∧
      st'.counter ≤ st.counter + 1 := by
  unfold storeRecord
  rw [storeRecordGo_conflict_step hdb hg (hconf 0)]
  dsimp only
  cases maxR with
  | zero =>
    refine ⟨_, rfl, rfl, ?_, ?_, ?_, ?_, ?_⟩ <;> (try split) <;>
      simp [markMailboxes_db, markMailboxes_items, markMailboxes_changes,
        markMailboxes_reads, markMailboxes_counter, ensureChangeId_db,
        ensureChangeId_items, ensureChangeId_changes, ensureChangeId_reads,
        ensureChangeId_counter_le, conflictTrace]
  | succ f =>
    have h1 : (if (applyOperation args.operation args.keywords data).2 = true then
        ({ st with reads := st.reads ++ [(id, 0)] } : StoreState).ensureChangeId.2.markMailboxes
          (applyOperation args.operation args.keywords data).1.mailboxes
      else ({ st with reads := st.reads ++ [(id, 0)] } : StoreState).ensureChangeId.2).db id
        = some (data, tid) := by
      split <;> simp [markMailboxes_db, ensureChangeId_db, hdb]
    have h2 : (if (applyOperation args.operation args.keywords data).2 = true then
        ({ st with reads := st.reads ++ [(id, 0)] } : StoreState).ensureChangeId.2.markMailboxes
          (applyOperation args.operation args.keywords data).1.mailboxes
      else ({ st with reads := st.reads ++ [(id, 0)] } : StoreState).ensureChangeId.2).changelog.changeId
        = some (({ st with reads := st.reads ++ [(id, 0)] } : StoreState).ensureChangeId.1) := by
      split <;> simp [markMailboxes_changes, ensureChangeId_changeId]
    have h3 : (applyOperation args.operation args.keywords data).2 = true →
        ∀ m ∈ (applyOperation args.operation args.keywords data).1.mailboxes,
          (if (applyOperation args.operation args.keywords data).2 = true then
            ({ st with reads := st.reads ++ [(id, 0)] } : StoreState).ensureChangeId.2.markMailboxes
              (applyOperation args.operation args.keywords data).1.mailboxes
          else ({ st with reads := st.reads ++ [(id, 0)] } : StoreState).ensureChangeId.2).changedMailboxes.contains m
            = true := by
      intro hsc m hm
      rw [if_pos hsc]
      exact markMailboxes_contains hm
    dsimp only
    simp only [Nat.zero_add]
    rw [storeRecordGo_conflict_inner hg hconf f 1 _ h1 h2 h3]
    refine ⟨_, rfl, rfl, ?_, ?_, ?_, ?_, ?_⟩ <;> (try split) <;>
      simp [markMailboxes_db, markMailboxes_items, markMailboxes_changes,
        markMailboxes_reads, markMailboxes_counter, ensureChangeId_db,
        ensureChangeId_items, ensureChangeId_changes, ensureChangeId_reads,
        ensureChangeId_counter_le, conflictTrace, List.append_assoc]

end MailStore

namespace MailStore

lemma storeRecordGo_total {env : StoreEnv} {maxR : Nat} {args : StoreArgs}
    {ctx : StoreCtx} {id : Nat} {imapId : ImapId}
    (hf : ∀ i t, env.write i t ≠ WriteOutcome.fatal) :
    ∀ (fuel t : Nat) (st : StoreState),
      ∃ st', storeRecordGo env maxR args ctx id imapId t fuel st = .ok st' := by
  intro fuel
  induction fuel with
  | zero =>
    intro t st
    cases hdb : st.db id with
    | none => exact ⟨_, storeRecordGo_skip hdb⟩
    | some pr =>
      obtain ⟨data, tid⟩ := pr
      by_cases hg : (applyOperation args.operation args.keywords data).1.keywords
          = data.keywords
      · exact ⟨_, storeRecordGo_noop hdb hg⟩
      · cases hw : env.write id t with
        | ok => exact ⟨_, storeRecordGo_write_ok hdb hg hw⟩
        | assertFail => exact ⟨_, storeRecordGo_conflict_step hdb hg hw⟩
        | fatal => exact absurd hw (hf id t)
  | succ f ih =>
    intro t st
    cases hdb : st.db id with
    | none => exact ⟨_, storeRecordGo_skip hdb⟩
    | some pr =>
      obtain ⟨data, tid⟩ := pr
      by_cases hg : (applyOperation args.operation args.keywords data).1.keywords
          = data.keywords
      · exact ⟨_, storeRecordGo_noop hdb hg⟩
      · cases hw : env.write id t with
        | ok => exact ⟨_, storeRecordGo_write_ok hdb hg hw⟩
        | fatal => exact absurd hw (hf id t)
        | assertFail =>
          rw [storeRecordGo_conflict_step hdb hg hw]
          dsimp only
          exact ih (t + 1) _

end MailStore

namespace MailStore

lemma storeRecords_total {env : StoreEnv} {maxR : Nat} {args : StoreArgs}
    {ctx : StoreCtx} (hf : ∀ i t, env.write i t ≠ WriteOutcome.fatal) :
    ∀ (ids : List (Nat × ImapId)) (st : StoreState),
      ∃ st', storeRecords env maxR args ctx ids st = .ok st' := by
  intro ids
  induction ids with
  | nil => intro st; exact ⟨st, rfl⟩
  | cons q rest ih =>
    intro st
    obtain ⟨st1, h1⟩ := @storeRecordGo_total env maxR args ctx q.1 q.2 hf maxR 0 st
    obtain ⟨st', h2⟩ := ih st1
    refine ⟨st', ?_⟩
    unfold storeRecords storeRecord
    rw [h1]
    exact h2

/-- C2: when the conditional write of one record is rejected on every
attempt because the Version Token no longer matches (a persistent CAS
conflict), the engine re-reads the record on each retry — the read trace
gains exactly the attempts 0 to maxRetries — and after the bound is
exceeded only that record is marked failed: the aggregate response is
downgraded (`failed = true`, the NO "Some messages could not be updated."
status) while the store, the response items and the change-log entries are
left exactly as they were; the command still produces a response whenever
no fatal store error occurs; and in a two-record command where only the
first record conflicts, the second record's update stands (its new label
set is written and its untagged response is emitted) while the command
reports the partial failure. -/
theorem store_conflict_bounded_retry :
    (∀ (env : StoreEnv) (maxR : Nat) (args : StoreArgs) (ctx : StoreCtx)
        (id : Nat) (imapId : ImapId) (st : StoreState) (data : MessageData)
        (tid : Nat),
        st.db id = some (data, tid) →
        (applyOperation args.operation args.keywords data).1.keywords ≠ data.keywords →
        (∀ t, env.write id t = WriteOutcome.assertFail) →
        ∃ st', storeRecord env maxR args ctx id imapId st = .ok st' ∧
          st'.failed = true ∧ st'.db = st.db ∧ st'.items = st.items ∧
          st'.changelog.changes = st.changelog.changes ∧
          st'.reads = st.reads ++ conflictTrace id 0 maxR ∧
          st'.counter ≤ st.counter + 1)
    ∧
    (∀ (env : StoreEnv) (maxR : Nat) (args : StoreArgs) (ctx : StoreCtx)
        (ids : List (Nat × ImapId)) (st : StoreState),
        (∀ i t, env.write i t ≠ WriteOutcome.fatal) →
        ∃ r, runStore env maxR args ctx ids st = .ok r)
    ∧
    ((runStore ⟨fun i _ => if i = 1 then WriteOutcome.assertFail else WriteOutcome.ok⟩ 2
        ⟨Operation.add, [Keyword.other 5], false⟩ ⟨false, false⟩
        [(1, ⟨1, 1⟩), (2, ⟨2, 2⟩)]
        (initStoreState
          (fun i => if i = 1 ∨ i = 2 then some (⟨[], [], 0⟩, 7) else none) 0)).map
      (fun r => (r.state.failed, r.state.items.map RespItem.seqnum,
                 r.state.db 1, r.state.db 2, r.state.reads)) =
      .ok (true, [2], some (⟨[], [], 0⟩, 7),
           some (⟨[Keyword.other 5], [], 0⟩, 7),
           [(1, 0), (1, 1), (1, 2), (2, 0)])) := by
  refine ⟨?_, ?_, rfl⟩
  · intro env maxR args ctx id imapId st data tid hdb hg hconf
    exact storeRecord_conflict hdb hg hconf
  · intro env maxR args ctx ids st hf
    obtain ⟨st', h⟩ := storeRecords_total hf ids st
    unfold runStore
    rw [h]
    dsimp only
    split
    · exact ⟨_, rfl⟩
    · exact ⟨_, rfl⟩

/-- Witness for C2: with a store write that always reports a CAS conflict,
the single record of a command is marked failed after exactly
`maxRetries + 1` read attempts; and a command against an always-succeeding
store returns a response. -/
theorem store_conflict_bounded_retry_witness :
    ((storeRecord ⟨fun _ _ => WriteOutcome.assertFail⟩ 2
        ⟨Operation.add, [Keyword.other 5], false⟩ ⟨false, false⟩ 1 ⟨1, 1⟩
        (initStoreState
          (fun i => if i = 1 then some (⟨[], [], 0⟩, 7) else none) 0)).map
      (fun s => (s.failed, s.reads)) = .ok (true, conflictTrace 1 0 2))
    ∧
    runStore ⟨fun _ _ => WriteOutcome.ok⟩ 3
      ⟨Operation.set, [Keyword.seen], true⟩ ⟨false, false⟩ [(4, ⟨1, 1⟩)]
      (initStoreState (fun i => if i = 4 then some (⟨[], [], 0⟩, 9) else none) 0)
      ≠ .error () := by
  constructor
  · obtain ⟨st', heq, hfail, -, -, -, hreads, -⟩ :=
      store_conflict_bounded_retry.1 ⟨fun _ _ => WriteOutcome.assertFail⟩ 2
        ⟨Operation.add, [Keyword.other 5], false⟩ ⟨false, false⟩ 1 ⟨1, 1⟩
        (initStoreState
          (fun i => if i = 1 then some (⟨[], [], 0⟩, 7) else none) 0)
        ⟨[], [], 0⟩ 7 rfl (by decide) (fun _ => rfl)
    rw [heq]
    simp only [Except.map]
    rw [hfail, hreads]
    rfl
  · obtain ⟨r, heq⟩ := store_conflict_bounded_retry.2.1 ⟨fun _ _ => WriteOutcome.ok⟩ 3
      ⟨Operation.set, [Keyword.seen], true⟩ ⟨false, false⟩ [(4, ⟨1, 1⟩)]
      (initStoreState (fun i => if i = 4 then some (⟨[], [], 0⟩, 9) else none) 0)
      (fun i t h => WriteOutcome.noConfusion h)
    rw [heq]
    exact fun h => Except.noConfusion h

end MailStore

namespace MailStore

lemma logUpdate_changeId (c : ChangeLog) (i j : Nat) :
    (c.logUpdate i j).changeId = c.changeId := rfl

lemma logChildUpdate_changeId (c : ChangeLog) (i j : Nat) :
    (c.logChildUpdate i j).changeId = c.changeId := rfl

lemma ensureChangeId_P {st : StoreState} {c0 : Nat}
    (hP : (st.changelog.changeId = none ∧ st.counter = c0) ∨
      (st.changelog.changeId = some c0 ∧ st.counter = c0 + 1)) :
    st.ensureChangeId.1 = c0 ∧
    st.ensureChangeId.2.changelog.changeId = some c0 ∧
    st.ensureChangeId.2.counter = c0 + 1 := by
  rcases hP with ⟨h1, h2⟩ | ⟨h1, h2⟩ <;>
    unfold StoreState.ensureChangeId StoreState.assignChangeId <;>
    simp [h1, h2]

lemma storeRecordGo_counter_inv {env : StoreEnv} {maxR : Nat} {args : StoreArgs}
    {ctx : StoreCtx} {id : Nat} {imapId : ImapId} {c0 : Nat} :
    ∀ (fuel t : Nat) (st st' : StoreState),
      storeRecordGo env maxR args ctx id imapId t fuel st = .ok st' →
      ((st.changelog.changeId = none ∧ st.counter = c0) ∨
        (st.changelog.changeId = some c0 ∧ st.counter = c0 + 1)) →
      (st.changelog.changeId = none →
        st.changelog.changes = [] ∧ st.changedMailboxes = []) →
      (((st'.changelog.changeId = none ∧ st'.counter = c0) ∨
        (st'.changelog.changeId = some c0 ∧ st'.counter = c0 + 1)) ∧
       (st'.changelog.changeId = none →
        st'.changelog.changes = [] ∧ st'.changedMailboxes = [])) := by
  intro fuel
  induction fuel with
  | zero =>
    intro t st st' h hP hQ
    cases hdb : st.db id with
    | none =>
      rw [storeRecordGo_skip hdb] at h
      obtain rfl : _ = st' := Except.ok.inj h
      exact ⟨hP, hQ⟩
    | some pr =>
      obtain ⟨data, tid⟩ := pr
      by_cases hg : (applyOperation args.operation args.keywords data).1.keywords
          = data.keywords
      · rw [storeRecordGo_noop hdb hg] at h
        obtain rfl : _ = st' := Except.ok.inj h
        exact ⟨hP, hQ⟩
      · obtain ⟨he1, he2, he3⟩ := @ensureChangeId_P
          { st with reads := st.reads ++ [(id, t)] } c0 hP
        cases hw : env.write id t with
        | fatal => rw [storeRecordGo_write_fatal hdb hg hw] at h; cases h
        | ok =>
          rw [storeRecordGo_write_ok hdb hg hw] at h
          dsimp only at h
          obtain rfl : _ = st' := Except.ok.inj h
          refine ⟨Or.inr ⟨?_, ?_⟩, ?_⟩
          · rw [logUpdate_changeId]
            split <;> simp [markMailboxes_changes, he2]
          · split <;> simp [markMailboxes_counter, he3]
          · intro hnone
            rw [logUpdate_changeId] at hnone
            exfalso
            revert hnone
            split <;> simp [markMailboxes_changes, he2]
        | assertFail =>
          rw [storeRecordGo_conflict_step hdb hg hw] at h
          dsimp only at h
          obtain rfl : _ = st' := Except.ok.inj h
          refine ⟨Or.inr ⟨?_, ?_⟩, ?_⟩
          · split <;> simp [markMailboxes_changes, he2]
          · split <;> simp [markMailboxes_counter, he3]
          · intro hnone
            exfalso
            revert hnone
            split <;> simp [markMailboxes_changes, he2]
  | succ f ih =>
    intro t st st' h hP hQ
    cases hdb : st.db id with
    | none =>
      rw [storeRecordGo_skip hdb] at h
      obtain rfl : _ = st' := Except.ok.inj h
      exact ⟨hP, hQ⟩
    | some pr =>
      obtain ⟨data, tid⟩ := pr
      by_cases hg : (applyOperation args.operation args.keywords data).1.keywords
          = data.keywords
      · rw [storeRecordGo_noop hdb hg] at h
        obtain rfl : _ = st' := Except.ok.inj h
        exact ⟨hP, hQ⟩
      · obtain ⟨he1, he2, he3⟩ := @ensureChangeId_P
          { st with reads := st.reads ++ [(id, t)] } c0 hP
        cases hw : env.write id t with
        | fatal => rw [storeRecordGo_write_fatal hdb hg hw] at h; cases h
        | ok =>
          rw [storeRecordGo_write_ok hdb hg hw] at h
          dsimp only at h
          obtain rfl : _ = st' := Except.ok.inj h
          refine ⟨Or.inr ⟨?_, ?_⟩, ?_⟩
          · rw [logUpdate_changeId]
            split <;> simp [markMailboxes_changes, he2]
          · split <;> simp [markMailboxes_counter, he3]
          · intro hnone
            rw [logUpdate_changeId] at hnone
            exfalso
            revert hnone
            split <;> simp [markMailboxes_changes, he2]
        | assertFail =>
          rw [storeRecordGo_conflict_step hdb hg hw] at h
          dsimp only at h
          refine ih (t + 1) _ st' h (Or.inr ⟨?_, ?_⟩) ?_
          · split <;> simp [markMailboxes_changes, he2]
          · split <;> simp [markMailboxes_counter, he3]
          · intro hnone
            exfalso
            revert hnone
            split <;> simp [markMailboxes_changes, he2]

end MailStore

namespace MailStore

lemma storeRecords_counter_inv {env : StoreEnv} {maxR : Nat} {args : StoreArgs}
    {ctx : StoreCtx} {c0 : Nat} :
    ∀ (ids : List (Nat × ImapId)) (st st' : StoreState),
      storeRecords env maxR args ctx ids st = .ok st' →
      ((st.changelog.changeId = none ∧ st.counter = c0) ∨
        (st.changelog.changeId = some c0 ∧ st.counter = c0 + 1)) →
      (st.changelog.changeId = none →
        st.changelog.changes = [] ∧ st.changedMailboxes = []) →
      (((st'.changelog.changeId = none ∧ st'.counter = c0) ∨
        (st'.changelog.changeId = some c0 ∧ st'.counter = c0 + 1)) ∧
       (st'.changelog.changeId = none →
        st'.changelog.changes = [] ∧ st'.changedMailboxes = [])) := by
  intro ids
  induction ids with
  | nil =>
    intro st st' h hP hQ
    obtain rfl : st = st' := Except.ok.inj h
    exact ⟨hP, hQ⟩
  | cons q rest ih =>
    intro st st' h hP hQ
    unfold storeRecords at h
    cases hr : storeRecord env maxR args ctx q.1 q.2 st with
    | error e => rw [hr] at h; cases h
    | ok st1 =>
      rw [hr] at h
      obtain ⟨hP1, hQ1⟩ := storeRecordGo_counter_inv maxR 0 st st1 hr hP hQ
      exact ih st1 st' h hP1 hQ1

lemma foldl_logChild_changeId (M : List Nat) (c : ChangeLog) :
    (M.foldl (fun c m => c.logChildUpdate mailboxCollection m) c).changeId
      = c.changeId := by
  induction M generalizing c with
  | nil => rfl
  | cons x M ih => simp [List.foldl_cons, ih, logChildUpdate_changeId]

lemma foldl_logChild_changes (M : List Nat) (c : ChangeLog) :
    (M.foldl (fun c m => c.logChildUpdate mailboxCollection m) c).changes
      = c.changes ++ M.map (fun m => ChangeEntry.childUpdate mailboxCollection m) := by
  induction M generalizing c with
  | nil => simp
  | cons x M ih =>
    rw [List.foldl_cons, ih]
    simp [ChangeLog.logChildUpdate, List.append_assoc]

/-- C3 (amended): the builder's modseq is assigned lazily — the per-account
counter is consumed at most once per command, exactly when the first record
computes a changed label set and reaches its conditional write (even if
that write then fails, in which case a counter value may be consumed with
no change entry committed); a builder that accumulated zero entries is
never committed and broadcasts nothing; when a batch is committed, its
change id is precisely the single counter value the command consumed, and
all entries of the command are committed together under it. -/
theorem changelog_lazy_modseq_amended :
    ∀ (env : StoreEnv) (maxR : Nat) (args : StoreArgs) (ctx : StoreCtx)
      (ids : List (Nat × ImapId)) (db : Nat → Option (MessageData × Nat))
      (c0 : Nat) (r : StoreResult),
      runStore env maxR args ctx ids (initStoreState db c0) = .ok r →
      ((r.state.counter = c0 ∧ r.state.changelog.changeId = none) ∨
        (r.state.counter = c0 + 1 ∧ r.state.changelog.changeId = some c0)) ∧
      (r.committed = none ↔ r.state.changelog.changes = []) ∧
      (∀ cid es, r.committed = some (cid, es) →
        cid = c0 ∧ r.state.counter = c0 + 1 ∧
        es = r.state.changelog.changes ∧ es ≠ []) ∧
      (r.committed = none → r.broadcast = none) := by
  intro env maxR args ctx ids db c0 r h
  unfold runStore at h
  cases hrec : storeRecords env maxR args ctx ids (initStoreState db c0) with
  | error e => rw [hrec] at h; cases h
  | ok st' =>
    rw [hrec] at h
    dsimp only at h
    obtain ⟨hP, hQ⟩ := storeRecords_counter_inv ids (initStoreState db c0) st' hrec
      (Or.inl ⟨rfl, rfl⟩) (fun _ => ⟨rfl, rfl⟩)
    split at h
    · rename_i hempty
      obtain rfl : _ = r := Except.ok.inj h
      refine ⟨?_, ?_, ?_, ?_⟩
      · rcases hP with ⟨h1, h2⟩ | ⟨h1, h2⟩
        · exact Or.inl ⟨h2, by rw [foldl_logChild_changeId]; exact h1⟩
        · exact Or.inr ⟨h2, by rw [foldl_logChild_changeId]; exact h1⟩
      · simp only [ChangeLog.isEmpty, List.isEmpty_iff] at hempty
        exact ⟨fun _ => hempty, fun _ => rfl⟩
      · intro cid es hc; cases hc
      · intro _; rfl
    · rename_i hempty
      obtain rfl : _ = r := Except.ok.inj h
      refine ⟨?_, ?_, ?_, ?_⟩
      · rcases hP with ⟨h1, h2⟩ | ⟨h1, h2⟩
        · exact Or.inl ⟨h2, by rw [foldl_logChild_changeId]; exact h1⟩
        · exact Or.inr ⟨h2, by rw [foldl_logChild_changeId]; exact h1⟩
      · constructor
        · intro hc; cases hc
        · intro hes
          exfalso
          apply hempty
          simpa [ChangeLog.isEmpty, List.isEmpty_iff] using hes
      · intro cid es hc
        have hpair := Option.some.inj hc
        have hcid := congrArg Prod.fst hpair
        have hes := congrArg Prod.snd hpair
        dsimp only at hcid hes
        have hid : st'.changelog.changeId = some c0 ∧ st'.counter = c0 + 1 := by
          rcases hP with ⟨h1, h2⟩ | ⟨h1, h2⟩
          · exfalso
            apply hempty
            obtain ⟨hc1, hc2⟩ := hQ h1
            simp [ChangeLog.isEmpty, foldl_logChild_changes, hc1, hc2]
          · exact ⟨h1, h2⟩
        refine ⟨?_, hid.2, hes.symm, ?_⟩
        · rw [← hcid, foldl_logChild_changeId, hid.1]
          rfl
        · rw [← hes]
          intro hn
          apply hempty
          simpa [ChangeLog.isEmpty, List.isEmpty_iff] using hn
      · intro hc; cases hc

end MailStore

namespace MailStore

/-- Counterexample to C3 as stated: a STORE command whose only record
computes a changed label set but whose conditional write is rejected on
every attempt consumes a counter value (the counter advances from 0 to 1)
although not a single change-log entry is produced, nothing is committed
and nothing is broadcast — so the counter is not incremented "only when
the record actually produces a change", and a command that changes nothing
can consume a counter value. -/
theorem changelog_lazy_modseq_counterexample :
    ((runStore ⟨fun _ _ => WriteOutcome.assertFail⟩ 2
        ⟨Operation.add, [Keyword.other 5], false⟩ ⟨false, false⟩ [(1, ⟨1, 1⟩)]
        (initStoreState
          (fun i => if i = 1 then some (⟨[], [], 0⟩, 7) else none) 0)).map
      (fun r => (r.state.counter, r.state.changelog.changes, r.committed, r.broadcast)) =
      .ok (1, [], none, none))
    ∧ (1 : Nat) ≠ 0 := ⟨rfl, by decide⟩

/-- Witness for the amended C3: on a one-record command whose write
succeeds, the committed batch carries change id 0 (the single counter value
consumed, from counter 0 to 1) and a non-empty entry list. -/
theorem changelog_lazy_modseq_amended_witness :
    (1 : Nat) = 0 + 1 ∧
    ([ChangeEntry.update emailCollection 1] : List ChangeEntry) ≠ [] := by
  have h := changelog_lazy_modseq_amended ⟨fun _ _ => WriteOutcome.ok⟩ 3
    ⟨Operation.set, [Keyword.other 1], true⟩ ⟨false, false⟩ [(1, ⟨1, 1⟩)]
    (fun i => if i = 1 then some (⟨[Keyword.other 0], [], 0⟩, 7) else none) 0
    { state :=
        { db := fun i =>
            if i = 1 then some (⟨[Keyword.other 1], [], 0⟩, 7)
            else (fun j => if j = 1 then some (⟨[Keyword.other 0], [], 0⟩, 7)
                  else none) i,
          counter := 1,
          changelog := ⟨some 0, [ChangeEntry.update emailCollection 1]⟩,
          changedMailboxes := [], items := [], failed := false, reads := [(1, 0)] },
      committed := some (0, [ChangeEntry.update emailCollection 1]),
      broadcast := some false } rfl
  obtain ⟨-, -, hsome, -⟩ := h
  obtain ⟨-, hcnt, -, hne⟩ := hsome 0 [ChangeEntry.update emailCollection 1] rfl
  exact ⟨hcnt, hne⟩

end MailStore

namespace MailStore

lemma bodySectionGo_part_path :
    ∀ (rest : List Section) (d : Decoded) (sub : Option (Nat × Nat)) (total : Nat)
      (msg : List MetaPart) (mid : Nat) (part : MetaPart) (sn : Nat),
      (∀ s ∈ rest, ∃ n, s = Section.part n) →
      bodySectionGo d sub total rest msg mid part sn =
        (navigatePath rest msg mid part sn total).bind
          (fun r => (d.sectionBytes r.1 r.2.offsetBody r.2.offsetEnd).map
            (getPartialBytes · sub)) := by
  intro rest
  induction rest with
  | nil =>
    intro d sub total msg mid part sn hall
    simp [bodySectionGo, navigatePath]
  | cons s rest ih =>
    intro d sub total msg mid part sn hall
    obtain ⟨n, rfl⟩ := hall s (List.mem_cons_self _ _)
    have hrest : ∀ s ∈ rest, ∃ n, s = Section.part n :=
      fun s hs => hall s (List.mem_cons_of_mem _ hs)
    unfold bodySectionGo navigatePath
    cases hsel : selectPart msg part n sn total with
    | none => simp [hsel]
    | some part' =>
      simp only [hsel]
      cases hb : part'.body <;> cases hh : rest.head? <;>
        simp only [hb, hh] <;>
        first
          | (split <;> exact ih d sub total _ _ _ _ hrest)
          | exact ih d sub total _ _ _ _ hrest

/-- C5: for every body-section fetch whose section path consists only of
part numbers (BODY[x] with no section discriminator), the returned bytes
are exactly the traversal target's body-start..body-end range — the body
only, clamped by the optional subrange — and never the
header-start..body-end range (headers plus body). -/
theorem bodySection_part_path_body_only :
    ∀ (sections : List Section) (d : Decoded) (msg : List MetaPart)
      (sub : Option (Nat × Nat)),
      sections ≠ [] →
      (∀ s ∈ sections, ∃ n, s = Section.part n) →
      bodySection d msg sections sub =
        (navigatePath sections msg 0 (rootPart msg) 0 sections.length).bind
          (fun r => (d.sectionBytes r.1 r.2.offsetBody r.2.offsetEnd).map
            (getPartialBytes · sub)) := by
  intro sections d msg sub hne hall
  unfold bodySection
  rw [if_neg (by simpa [List.isEmpty_iff] using hne)]
  exact bodySectionGo_part_path sections d sub sections.length msg 0 (rootPart msg) 0 hall

/-- Witness for C5: on a one-part message, BODY[1] returns exactly the
body-start..body-end bytes of the addressed part. -/
theorem bodySection_part_path_body_only_witness :
    bodySection ⟨fun mid a b => some [mid, a, b], fun _ _ => some [], fun _ _ => some []⟩
        [MetaPart.mk 0 10 20 [] false MetaPartType.text] [Section.part 1] none =
      (navigatePath [Section.part 1]
          [MetaPart.mk 0 10 20 [] false MetaPartType.text] 0
          (rootPart [MetaPart.mk 0 10 20 [] false MetaPartType.text]) 0 1).bind
        (fun r =>
          ((⟨fun mid a b => some [mid, a, b], fun _ _ => some [], fun _ _ => some []⟩ :
              Decoded).sectionBytes r.1 r.2.offsetBody r.2.offsetEnd).map
            (getPartialBytes · none)) :=
  bodySection_part_path_body_only [Section.part 1]
    ⟨fun mid a b => some [mid, a, b], fun _ _ => some [], fun _ _ => some []⟩
    [MetaPart.mk 0 10 20 [] false MetaPartType.text] none
    (by simp)
    (fun s hs => ⟨1, by simpa using hs⟩)

end MailStore

namespace MailStore

lemma subParts_of_message {p : MetaPart} {l : List MetaPart}
    (h : p.body = MetaPartType.message l) : p.subParts = none := by
  cases p with
  | mk a b c hs e f => cases f <;> first | rfl | cases h

lemma isMessage_of_body_message {p : MetaPart} {l : List MetaPart}
    (h : p.body = MetaPartType.message l) : p.isMessage = true := by
  cases p with
  | mk a b c hs e f => cases f <;> first | rfl | cases h

lemma selectPart_mem {msg : List MetaPart} {part part' : MetaPart}
    {num sn total : Nat} (h : selectPart msg part num sn total = some part') :
    part' ∈ msg ∨ part' = part := by
  unfold selectPart at h
  cases hsub : part.subParts with
  | some subIds =>
    rw [hsub] at h
    dsimp only at h
    cases hget : subIds.get? (num - 1) with
    | none => rw [hget] at h; cases h
    | some pos =>
      rw [hget] at h
      simp only [Option.some_bind] at h
      exact Or.inl (List.get?_mem h)
  | none =>
    rw [hsub] at h
    dsimp only at h
    split at h
    · exact Or.inr (Option.some.inj h).symm
    · cases h

lemma rootPart_isMessage_false {msg : List MetaPart}
    (hmsg : ∀ p ∈ msg, p.isMessage = false) : (rootPart msg).isMessage = false := by
  cases msg with
  | nil => rfl
  | cons a l => exact hmsg a (List.mem_cons_self _ _)

lemma renderHeaderFields_congr {d d' : Decoded} {mid : Nat}
    (hd : ∀ a b, d.sectionBytes mid a b = d'.sectionBytes mid a b)
    (hs : List MHeader) (isNot : Bool) (fields : List String) :
    renderHeaderFields d mid hs isNot fields = renderHeaderFields d' mid hs isNot fields := by
  unfold renderHeaderFields
  rw [List.foldl_ext _ _ [] (fun acc h _ => by rw [hd])]

lemma renderMimeHeaders_congr {d d' : Decoded} {mid : Nat}
    (hd : ∀ a b, d.sectionBytes mid a b = d'.sectionBytes mid a b)
    (hs : List MHeader) :
    renderMimeHeaders d mid hs = renderMimeHeaders d' mid hs := by
  unfold renderMimeHeaders
  rw [List.foldl_ext _ _ [] (fun acc h _ => by rw [hd])]

lemma bodySectionGo_congr_zero {d d' : Decoded}
    (hd : ∀ a b, d.sectionBytes 0 a b = d'.sectionBytes 0 a b) :
    ∀ (rest : List Section) (msg : List MetaPart) (part : MetaPart)
      (sn total : Nat) (sub : Option (Nat × Nat)),
      (∀ p ∈ msg, p.isMessage = false) → part.isMessage = false →
      bodySectionGo d sub total rest msg 0 part sn =
        bodySectionGo d' sub total rest msg 0 part sn := by
  intro rest
  induction rest with
  | nil =>
    intro msg part sn total sub hmsg hp
    unfold bodySectionGo
    rw [hd]
  | cons s rest ih =>
    intro msg part sn total sub hmsg hp
    unfold bodySectionGo
    cases s with
    | header => dsimp only; rw [hd]
    | text => dsimp only; rw [hd]
    | headerFields isNot fields => dsimp only; rw [renderHeaderFields_congr hd]
    | mime => dsimp only; rw [renderMimeHeaders_congr hd]
    | part n =>
      dsimp only
      cases hsel : selectPart msg part n sn total with
      | none => simp [hsel]
      | some part' =>
        have hp' : part'.isMessage = false := by
          rcases selectPart_mem hsel with hmem | rfl
          · exact hmsg part' hmem
          · exact hp
        simp only [hsel]
        cases hb : part'.body <;> cases hh : rest.head? <;> simp only [hb, hh] <;>
          first
            | exact absurd (isMessage_of_body_message hb) (by rw [hp']; decide)
            | exact ih msg part' (sn + 1) total sub hmsg hp'

end MailStore

namespace MailStore

/-- Counterexample to C4 as stated: on a one-part message (root node with
no children), the claim's unconditional "a segment `1` stays on the current
node" rule (`selectPartSpec`, following the spec's words) selects the root,
but the source's rule (`selectPart`) fails whenever that segment is not the
last section element and the node is not a message node — so
`BODY[1.TEXT]` returns nothing although `BODY[1]` addresses the node fine;
and a MIME discriminator after a message node does not descend into the
nested tree: `BODY[1.MIME]` synthesizes the message node's own headers with
raw-byte scope 0 (first byte of each rendered value is the scope id 0, not
1), although `BODY[1.TEXT]` on the same node descends and reads scope 1. -/
theorem traversal_stay_descend_counterexample :
    (selectPart [MetaPart.mk 0 10 20 [] false MetaPartType.text]
        (rootPart [MetaPart.mk 0 10 20 [] false MetaPartType.text]) 1 0 2 = none)
    ∧ (selectPartSpec [MetaPart.mk 0 10 20 [] false MetaPartType.text]
        (rootPart [MetaPart.mk 0 10 20 [] false MetaPartType.text]) 1 =
        some (rootPart [MetaPart.mk 0 10 20 [] false MetaPartType.text]))
    ∧ (bodySection ⟨fun mid a b => some [mid, a, b], fun _ _ => some [], fun _ _ => some []⟩
        [MetaPart.mk 0 10 20 [] false MetaPartType.text]
        [Section.part 1, Section.text] none = none)
    ∧ (bodySection ⟨fun mid a b => some [mid, a, b], fun _ _ => some [], fun _ _ => some []⟩
        [MetaPart.mk 0 10 20 [] false MetaPartType.text]
        [Section.part 1] none = some [0, 10, 20])
    ∧ (bodySection ⟨fun mid a b => some [mid, a, b], fun _ _ => some [], fun _ _ => some []⟩
        [MetaPart.mk 0 50 200 [] false (MetaPartType.multipart [1]),
         MetaPart.mk 60 70 120 [MHeader.mk "Content-Type" 1 2 true] false
           (MetaPartType.message [MetaPart.mk 100 110 120 [] false MetaPartType.text])]
        [Section.part 1, Section.text] none = some [1, 110, 120])
    ∧ (bodySection ⟨fun mid a b => some [mid, a, b], fun _ _ => some [], fun _ _ => some []⟩
        [MetaPart.mk 0 50 200 [] false (MetaPartType.multipart [1]),
         MetaPart.mk 60 70 120 [MHeader.mk "Content-Type" 1 2 true] false
           (MetaPartType.message [MetaPart.mk 100 110 120 [] false MetaPartType.text])]
        [Section.part 1, Section.mime] none =
        some (strBytes "Content-Type" ++ [58] ++ [0, 1, 2] ++ [13, 10])) :=
  ⟨rfl, rfl, rfl, rfl, rfl, rfl⟩

/-- C4 (amended): a path segment selects the Nth child when the node has
children; a node without children is stayed on by segment `1` only when
that segment is the last element of the whole section list or the node is
a message node — otherwise traversal fails; when the selected node is a
message node followed by a part segment or a HEADER/HEADER.FIELDS/TEXT
discriminator, traversal descends into the nested tree, restarting at its
root with the raw-byte scope advanced to 1; and the scope id advances only
through such a descent: over a tree with no message nodes the result
depends only on the scope-0 byte ranges. -/
theorem traversal_stay_descend_amended :
    (∀ (d : Decoded) (msg : List MetaPart) (rest : List Section)
        (sub : Option (Nat × Nat)),
        (rootPart msg).subParts = none → (rootPart msg).isMessage = false →
        bodySection d msg (Section.part 1 :: rest) sub =
          (if rest.isEmpty then
            (d.sectionBytes 0 (rootPart msg).offsetBody (rootPart msg).offsetEnd).map
              (getPartialBytes · sub)
          else none))
    ∧
    (∀ (d : Decoded) (msg nested : List MetaPart) (rest : List Section)
        (next : Section) (sub : Option (Nat × Nat)),
        (rootPart msg).body = MetaPartType.message nested →
        rest.head? = some next → isDescentSection next = true →
        bodySection d msg (Section.part 1 :: rest) sub =
          bodySectionGo d sub (rest.length + 1) rest nested 1 (rootPart nested) 1)
    ∧
    (∀ (d d' : Decoded) (msg : List MetaPart) (sections : List Section)
        (sub : Option (Nat × Nat)),
        (∀ a b, d.sectionBytes 0 a b = d'.sectionBytes 0 a b) →
        (∀ p ∈ msg, p.isMessage = false) →
        bodySection d msg sections sub = bodySection d' msg sections sub) := by
  refine ⟨?_, ?_, ?_⟩
  · intro d msg rest sub hsub hmsg
    unfold bodySection bodySectionGo
    cases rest with
    | nil =>
      simp only [List.isEmpty_cons, Bool.false_eq_true, if_false, List.isEmpty_nil,
        if_true]
      rw [show selectPart msg (rootPart msg) 1 0 [Section.part 1].length = some (rootPart msg) by
        unfold selectPart; rw [hsub]; simp]
      cases hb : (rootPart msg).body <;> simp only [hb] <;> (unfold bodySectionGo; rfl)
    | cons r rs =>
      simp only [List.isEmpty_cons, Bool.false_eq_true, if_false]
      rw [show selectPart msg (rootPart msg) 1 0 (Section.part 1 :: r :: rs).length = none by
        unfold selectPart
        rw [hsub]
        simp [hmsg]]
  · intro d msg nested rest next sub hb hh hdesc
    conv_lhs => unfold bodySection bodySectionGo
    simp only [List.isEmpty_cons, Bool.false_eq_true, if_false]
    rw [show selectPart msg (rootPart msg) 1 0 (Section.part 1 :: rest).length
        = some (rootPart msg) by
      unfold selectPart
      rw [subParts_of_message hb]
      simp [isMessage_of_body_message hb]]
    dsimp only
    simp [hb, hh, hdesc]
  · intro d d' msg sections sub hd hmsg
    unfold bodySection
    dsimp only
    split
    · rw [hd]
    · exact bodySectionGo_congr_zero hd sections msg (rootPart msg) 0 sections.length
        sub hmsg (rootPart_isMessage_false hmsg)

end MailStore

namespace MailStore

/-- Witness for the amended C4: a trailing-discriminator path on a
childless non-message root fails; a message root with a TEXT discriminator
following descends into the nested tree at scope 1; and two raw-byte
environments agreeing on scope 0 give the same result over a tree without
message nodes. -/
theorem traversal_stay_descend_amended_witness :
    (bodySection ⟨fun mid a b => some [mid, a, b], fun _ _ => some [], fun _ _ => some []⟩
        [MetaPart.mk 0 10 20 [] false MetaPartType.text]
        (Section.part 1 :: [Section.text]) none = none)
    ∧
    (bodySection ⟨fun mid a b => some [mid, a, b], fun _ _ => some [], fun _ _ => some []⟩
        [MetaPart.mk 0 30 90 [] false
          (MetaPartType.message [MetaPart.mk 100 110 120 [] false MetaPartType.text])]
        (Section.part 1 :: [Section.text]) none =
      bodySectionGo ⟨fun mid a b => some [mid, a, b], fun _ _ => some [], fun _ _ => some []⟩
        none ([Section.text].length + 1) [Section.text]
        [MetaPart.mk 100 110 120 [] false MetaPartType.text] 1
        (rootPart [MetaPart.mk 100 110 120 [] false MetaPartType.text]) 1)
    ∧
    (bodySection ⟨fun mid a b => some [mid, a, b], fun _ _ => some [], fun _ _ => some []⟩
        [MetaPart.mk 0 10 20 [] false MetaPartType.text] [Section.part 1] none =
      bodySection ⟨fun mid a b => if mid = 0 then some [mid, a, b] else none,
          fun _ _ => some [], fun _ _ => some []⟩
        [MetaPart.mk 0 10 20 [] false MetaPartType.text] [Section.part 1] none) := by
  refine ⟨?_, ?_, ?_⟩
  · exact traversal_stay_descend_amended.1
      ⟨fun mid a b => some [mid, a, b], fun _ _ => some [], fun _ _ => some []⟩
      [MetaPart.mk 0 10 20 [] false MetaPartType.text] [Section.text] none rfl rfl
  · exact traversal_stay_descend_amended.2.1
      ⟨fun mid a b => some [mid, a, b], fun _ _ => some [], fun _ _ => some []⟩
      [MetaPart.mk 0 30 90 [] false
        (MetaPartType.message [MetaPart.mk 100 110 120 [] false MetaPartType.text])]
      [MetaPart.mk 100 110 120 [] false MetaPartType.text]
      [Section.text] Section.text none rfl rfl rfl
  · exact traversal_stay_descend_amended.2.2
      ⟨fun mid a b => some [mid, a, b], fun _ _ => some [], fun _ _ => some []⟩
      ⟨fun mid a b => if mid = 0 then some [mid, a, b] else none,
        fun _ _ => some [], fun _ _ => some []⟩
      [MetaPart.mk 0 10 20 [] false MetaPartType.text] [Section.part 1] none
      (fun a b => rfl)
      (by intro p hp; simp only [List.mem_singleton] at hp; subst hp; rfl)

end MailStore

namespace MailStore

lemma foldl_filter_if {α β : Type} (p : β → Bool) (f : α → β → α) :
    ∀ (hs : List β) (acc : α),
      hs.foldl (fun acc h => if p h then f acc h else acc) acc =
        (hs.filter p).foldl f acc := by
  intro hs
  induction hs with
  | nil => intro acc; rfl
  | cons h hs ih =>
    intro acc
    by_cases hp : p h
    · simp [List.foldl_cons, List.filter_cons, hp, ih]
    · simp [List.foldl_cons, List.filter_cons, hp, ih]

lemma renderHeaderFields_filter (d : Decoded) (mid : Nat) (hs : List MHeader)
    (isNot : Bool) (fields : List String) :
    renderHeaderFields d mid hs isNot fields =
      renderHeaderList d mid
        (hs.filter (fun h => headerMatches fields h.name != isNot)) ++ [13, 10] := by
  unfold renderHeaderFields renderHeaderList
  rw [foldl_filter_if (fun h => headerMatches fields h.name != isNot)
    (fun acc h => acc ++ strBytes h.name ++ [58]
      ++ ((d.sectionBytes mid h.offsetStart h.offsetEnd).getD [])) hs []]

/-- C6: the HEADER.FIELDS (names) section synthesizes exactly the headers
of the addressed part whose names case-insensitively match a requested
name, and HEADER.FIELDS.NOT (names) exactly those that match none, each
block rendered in header order and terminated with a blank line
(CR LF, bytes 13 10); consequently the two complementary selections
partition the part's header list — every header occurs in exactly one of
the two, with multiplicities preserved, and their concatenation is a
permutation of the full header list (no header omitted or duplicated). -/
theorem header_fields_complementary :
    (∀ (d : Decoded) (sub : Option (Nat × Nat)) (total : Nat) (rest : List Section)
        (msg : List MetaPart) (mid : Nat) (part : MetaPart) (sn : Nat)
        (fields : List String),
        bodySectionGo d sub total (Section.headerFields false fields :: rest) msg mid part sn =
          some (getPartialBytes
            (renderHeaderList d mid (part.headers.filter
              (fun h => headerMatches fields h.name)) ++ [13, 10]) sub) ∧
        bodySectionGo d sub total (Section.headerFields true fields :: rest) msg mid part sn =
          some (getPartialBytes
            (renderHeaderList d mid (part.headers.filter
              (fun h => !(headerMatches fields h.name))) ++ [13, 10]) sub))
    ∧
    (∀ (fields : List String) (hs : List MHeader) (h : MHeader),
        (hs.filter (fun x => headerMatches fields x.name)).count h
          + (hs.filter (fun x => !(headerMatches fields x.name))).count h = hs.count h)
    ∧
    (∀ (fields : List String) (hs : List MHeader),
        ((hs.filter (fun x => headerMatches fields x.name))
          ++ (hs.filter (fun x => !(headerMatches fields x.name)))).Perm hs) := by
  refine ⟨?_, ?_, ?_⟩
  · intro d sub total rest msg mid part sn fields
    constructor
    · unfold bodySectionGo
      dsimp only
      rw [renderHeaderFields_filter]
      simp only [Bool.bne_false]
    · unfold bodySectionGo
      dsimp only
      rw [renderHeaderFields_filter]
      simp only [Bool.bne_true]
  · intro fields hs h
    by_cases hp : headerMatches fields h.name = true
    · rw [List.count_filter (p := fun (x : MHeader) => headerMatches fields x.name) (a := h) hp]
      have hz : (hs.filter (fun x => !(headerMatches fields x.name))).count h = 0 := by
        rw [List.count_eq_zero]
        intro hmem
        have hx := (List.mem_filter.mp hmem).2
        rw [hp] at hx
        cases hx
      rw [hz]
      exact Nat.add_zero _
    · have hp' : (fun x => !(headerMatches fields x.name)) h = true := by
        have hb : headerMatches fields h.name = false := Bool.eq_false_iff.mpr hp
        simp [hb]
      rw [List.count_filter (p := fun (x : MHeader) => !(headerMatches fields x.name)) (a := h) hp']
      have hz : (hs.filter (fun x => headerMatches fields x.name)).count h = 0 := by
        rw [List.count_eq_zero]
        intro hmem
        exact hp (List.mem_filter.mp hmem).2
      rw [hz]
      exact Nat.zero_add _
  · intro fields hs
    exact List.filter_append_perm _ hs

end MailStore

namespace MailStore

lemma runAttrsStep_shape (env : FetchEnv) (acct : Nat) (email : MetaMessage)
    (raw : List Nat) (dec : Decoded) (kws : List Keyword) (ssf : Bool)
    (tid uid seq id : Nat) (isUid : Bool) :
    ∀ (acc : List FDataItem × List Emit) (a : Attribute),
      runAttrsStep env acct email raw dec kws ssf tid uid seq id isUid acc a =
        (acc.1 ++ (runAttrsStep env acct email raw dec kws ssf tid uid seq id isUid
            ([], []) a).1,
         acc.2 ++ (runAttrsStep env acct email raw dec kws ssf tid uid seq id isUid
            ([], []) a).2) := by
  intro acc a
  cases a <;> dsimp only [runAttrsStep] <;>
    first
      | (split <;> simp)
      | simp

lemma runAttrs_shift (env : FetchEnv) (acct : Nat) (email : MetaMessage)
    (raw : List Nat) (dec : Decoded) (kws : List Keyword) (ssf : Bool)
    (tid uid seq id : Nat) (isUid : Bool) :
    ∀ (attrs : List Attribute) (acc : List FDataItem × List Emit),
      attrs.foldl (runAttrsStep env acct email raw dec kws ssf tid uid seq id isUid)
          acc =
        (acc.1 ++ (runAttrs env acct email raw dec kws ssf tid uid seq id isUid
            attrs).1,
         acc.2 ++ (runAttrs env acct email raw dec kws ssf tid uid seq id isUid
            attrs).2) := by
  intro attrs
  induction attrs with
  | nil => intro acc; simp [runAttrs]
  | cons a attrs ih =>
    intro acc
    rw [List.foldl_cons, ih, runAttrsStep_shape env acct email raw dec kws ssf
      tid uid seq id isUid acc a]
    have hr : runAttrs env acct email raw dec kws ssf tid uid seq id isUid
        (a :: attrs) =
        ((runAttrsStep env acct email raw dec kws ssf tid uid seq id isUid
            ([], []) a).1 ++ (runAttrs env acct email raw dec kws ssf tid uid seq
            id isUid attrs).1,
         (runAttrsStep env acct email raw dec kws ssf tid uid seq id isUid
            ([], []) a).2 ++ (runAttrs env acct email raw dec kws ssf tid uid seq
            id isUid attrs).2) := by
      show List.foldl _ _ (a :: attrs) = _
      rw [List.foldl_cons, ih]
    rw [hr]
    simp [List.append_assoc]

lemma runAttrs_append (env : FetchEnv) (acct : Nat) (email : MetaMessage)
    (raw : List Nat) (dec : Decoded) (kws : List Keyword) (ssf : Bool)
    (tid uid seq id : Nat) (isUid : Bool) (a1 a2 : List Attribute) :
    runAttrs env acct email raw dec kws ssf tid uid seq id isUid (a1 ++ a2) =
      ((runAttrs env acct email raw dec kws ssf tid uid seq id isUid a1).1
        ++ (runAttrs env acct email raw dec kws ssf tid uid seq id isUid a2).1,
       (runAttrs env acct email raw dec kws ssf tid uid seq id isUid a1).2
        ++ (runAttrs env acct email raw dec kws ssf tid uid seq id isUid a2).2) := by
  show List.foldl _ _ (a1 ++ a2) = _
  rw [List.foldl_append]
  rw [runAttrs_shift env acct email raw dec kws ssf tid uid seq id isUid a2]
  rfl

end MailStore

namespace MailStore

lemma emittedSeqs_append (a b : List Emit) :
    emittedSeqs (a ++ b) = emittedSeqs a ++ emittedSeqs b := by
  unfold emittedSeqs
  exact List.filterMap_append _ _ _

lemma runAttrsStep_errs_no_fetchItem (env : FetchEnv) (acct : Nat)
    (email : MetaMessage) (raw : List Nat) (dec : Decoded) (kws : List Keyword)
    (ssf : Bool) (tid uid seq id : Nat) (isUid : Bool)
    (acc : List FDataItem × List Emit) (a : Attribute) :
    emittedSeqs (runAttrsStep env acct email raw dec kws ssf tid uid seq id isUid
      acc a).2 = emittedSeqs acc.2 := by
  cases a <;> dsimp only [runAttrsStep] <;>
    (try split) <;> simp [emittedSeqs_append, emittedSeqs]

lemma runAttrs_errs_no_fetchItem (env : FetchEnv) (acct : Nat)
    (email : MetaMessage) (raw : List Nat) (dec : Decoded) (kws : List Keyword)
    (ssf : Bool) (tid uid seq id : Nat) (isUid : Bool) (attrs : List Attribute) :
    emittedSeqs (runAttrs env acct email raw dec kws ssf tid uid seq id isUid
      attrs).2 = [] := by
  suffices h : ∀ (acc : List FDataItem × List Emit),
      emittedSeqs (attrs.foldl (runAttrsStep env acct email raw dec kws ssf tid
        uid seq id isUid) acc).2 = emittedSeqs acc.2 by
    simpa [emittedSeqs] using h ([], [])
  induction attrs with
  | nil => intro acc; rfl
  | cons a attrs ih =>
    intro acc
    rw [List.foldl_cons, ih, runAttrsStep_errs_no_fetchItem]

lemma runSeenPhase_spec (env : FetchEnv) :
    ∀ (queue : List (Nat × Nat × List Keyword)) (cl : ChangeLog) (att : List Nat)
      (res : ChangeLog × List Nat),
      runSeenPhase env queue cl att = .ok res →
      res.2 = att ++ queue.map (fun q => q.2.1) ∧
      res.1.changes = cl.changes
        ++ (queue.filter (fun q => env.seenWrite q.2.1 == WriteOutcome.ok)).map
            (fun q => ChangeEntry.update emailCollection q.2.1) ∧
      res.1.changeId = cl.changeId := by
  intro queue
  induction queue with
  | nil =>
    intro cl att res h
    obtain rfl : (cl, att) = res := Except.ok.inj h
    simp
  | cons q queue ih =>
    intro cl att res h
    obtain ⟨tid, id, kws⟩ := q
    unfold runSeenPhase at h
    cases hw : env.seenWrite id with
    | ok =>
      rw [hw] at h
      obtain ⟨h1, h2, h3⟩ := ih _ _ _ h
      refine ⟨?_, ?_, ?_⟩
      · rw [h1]; simp
      · rw [h2]
        simp [ChangeLog.logUpdate, List.filter_cons, hw, List.append_assoc]
      · rw [h3]; rfl
    | assertFail =>
      rw [hw] at h
      obtain ⟨h1, h2, h3⟩ := ih _ _ _ h
      refine ⟨?_, ?_, ?_⟩
      · rw [h1]; simp
      · rw [h2]
        simp [List.filter_cons, hw]
      · exact h3
    | fatal => rw [hw] at h; cases h

lemma runSeenPhase_total (env : FetchEnv)
    (hf : ∀ i, env.seenWrite i ≠ WriteOutcome.fatal) :
    ∀ (queue : List (Nat × Nat × List Keyword)) (cl : ChangeLog) (att : List Nat),
      ∃ res, runSeenPhase env queue cl att = .ok res := by
  intro queue
  induction queue with
  | nil => intro cl att; exact ⟨(cl, att), rfl⟩
  | cons q queue ih =>
    intro cl att
    obtain ⟨tid, id, kws⟩ := q
    unfold runSeenPhase
    cases hw : env.seenWrite id with
    | ok => exact ih _ _
    | assertFail => exact ih _ _
    | fatal => exact absurd hw (hf id)

lemma runFetch_total (env : FetchEnv) (acct c : Nat) (attrs : List Attribute)
    (isUid : Bool) (ids : List (Nat × ImapId))
    (hf : ∀ i, env.seenWrite i ≠ WriteOutcome.fatal) :
    ∃ r, runFetch env acct c attrs isUid ids = .ok r ∧ r.completedOk = true := by
  unfold runFetch
  dsimp only
  split
  · exact ⟨_, rfl, rfl⟩
  · obtain ⟨res, hres⟩ := runSeenPhase_total env hf _ _ _
    rw [hres]
    dsimp only
    split
    · exact ⟨_, rfl, rfl⟩
    · exact ⟨_, rfl, rfl⟩

end MailStore

namespace MailStore

/-- C7: a BINARY section whose addressed part is flagged with a
content-transfer-decoding failure makes `binary` return an error; in the
attribute loop that error produces exactly one element-level UNKNOWN-CTE
emission naming the section path and the message (uid in UID mode, seqnum
otherwise) and no data item, evaluation of an attribute list decomposes so
that attributes before and after the failing one still produce their items
and emissions, the record's untagged FETCH response is still emitted after
the error emissions, and the command still completes with a tagged OK
whenever no fatal store error occurs. -/
theorem binary_decode_failure_element_error :
    (∀ (d : Decoded) (msg : List MetaPart) (sections : List Nat)
        (sub : Option (Nat × Nat)) (r : Nat × MetaPart × Nat),
        binaryNavigate sections.length sections msg 0 (rootPart msg) 0 0 = some r →
        r.2.1.isEncodingProblem = true →
        binaryFetch d msg sections sub = .error ())
    ∧
    (∀ (env : FetchEnv) (acct : Nat) (email : MetaMessage) (raw : List Nat)
        (dec : Decoded) (kws : List Keyword) (ssf : Bool) (tid uid seq id : Nat)
        (isUid peek : Bool) (sections : List Nat) (sub : Option (Nat × Nat)),
        binaryFetch dec email.contents sections sub = .error () →
        runAttrs env acct email raw dec kws ssf tid uid seq id isUid
          [Attribute.binary peek sections sub] =
          ([], [Emit.unknownCte sections (if isUid then uid else seq)]))
    ∧
    (∀ (env : FetchEnv) (acct : Nat) (email : MetaMessage) (raw : List Nat)
        (dec : Decoded) (kws : List Keyword) (ssf : Bool) (tid uid seq id : Nat)
        (isUid : Bool) (a1 a2 : List Attribute),
        runAttrs env acct email raw dec kws ssf tid uid seq id isUid (a1 ++ a2) =
          ((runAttrs env acct email raw dec kws ssf tid uid seq id isUid a1).1
            ++ (runAttrs env acct email raw dec kws ssf tid uid seq id isUid a2).1,
           (runAttrs env acct email raw dec kws ssf tid uid seq id isUid a1).2
            ++ (runAttrs env acct email raw dec kws ssf tid uid seq id isUid a2).2))
    ∧
    (∀ (env : FetchEnv) (acct : Nat) (attrs : List Attribute) (pf : PropFlags)
        (ssf isUid : Bool) (seq uid id : Nat) (acc : FetchAcc)
        (email : MetaMessage) (kws : List Keyword) (raw : List Nat) (tid : Nat),
        env.meta id = some email → env.keywordsOf id = some kws →
        (if pf.needsBlobs then env.blob email.blobHash
          else some email.rawHeaders) = some raw →
        (if pf.needsThreadId || (ssf && !kws.contains Keyword.seen) then
          env.threadIdOf id else some 0) = some tid →
        processRecord env acct attrs pf ssf isUid seq uid id acc =
          { acc with
            emits := acc.emits
              ++ (runAttrs env acct email raw (env.decode email.contents raw) kws
                    (ssf && !kws.contains Keyword.seen) tid uid seq id isUid attrs).2
              ++ [Emit.fetchItem seq
                    (if (ssf && !kws.contains Keyword.seen)
                        && !attrs.contains Attribute.flags then
                      (runAttrs env acct email raw (env.decode email.contents raw)
                        kws (ssf && !kws.contains Keyword.seen) tid uid seq id
                        isUid attrs).1 ++ [FDataItem.flags (kws ++ [Keyword.seen])]
                    else
                      (runAttrs env acct email raw (env.decode email.contents raw)
                        kws (ssf && !kws.contains Keyword.seen) tid uid seq id
                        isUid attrs).1)],
            setSeenIds := acc.setSeenIds
              ++ (if ssf && !kws.contains Keyword.seen then [(tid, id, kws)]
                  else []) })
    ∧
    (∀ (env : FetchEnv) (acct c : Nat) (attrs : List Attribute) (isUid : Bool)
        (ids : List (Nat × ImapId)),
        (∀ i, env.seenWrite i ≠ WriteOutcome.fatal) →
        ∃ r, runFetch env acct c attrs isUid ids = .ok r ∧ r.completedOk = true) := by
  refine ⟨?_, ?_, ?_, ?_, ?_⟩
  · intro d msg sections sub r hnav hflag
    unfold binaryFetch
    rw [hnav]
    obtain ⟨mid, part, pid⟩ := r
    dsimp only at hflag ⊢
    rw [hflag]
    rfl
  · intro env acct email raw dec kws ssf tid uid seq id isUid peek sections sub herr
    unfold runAttrs
    rw [List.foldl_cons]
    dsimp only [runAttrsStep]
    rw [herr]
    rfl
  · intro env acct email raw dec kws ssf tid uid seq id isUid a1 a2
    exact runAttrs_append env acct email raw dec kws ssf tid uid seq id isUid a1 a2
  · intro env acct attrs pf ssf isUid seq uid id acc email kws raw tid
      hmeta hkws hraw htid
    unfold processRecord
    rw [hmeta, hkws]
    dsimp only
    rw [hraw]
    dsimp only
    rw [htid]
  · intro env acct c attrs isUid ids hf
    exact runFetch_total env acct c attrs isUid ids hf

end MailStore

namespace MailStore

/-- Witness for C7: a part flagged as a decode failure makes `binary`
error, the attribute evaluation turns that into a single UNKNOWN-CTE
emission naming section 1 and message 3, and a FETCH command against a
store without fatal errors still completes. -/
theorem binary_decode_failure_element_error_witness :
    (binaryFetch ⟨fun mid a b => some [mid, a, b], fun _ _ => some [], fun _ _ => some []⟩
        [MetaPart.mk 0 10 20 [] true MetaPartType.text] [1] none = .error ())
    ∧
    (runAttrs ⟨fun _ => none, fun _ => none, fun _ => none, fun _ => none,
        fun _ => none, fun _ _ => ⟨fun _ _ _ => none, fun _ _ => none, fun _ _ => none⟩,
        fun _ => WriteOutcome.ok, true, true⟩ 0
      ⟨[MetaPart.mk 0 10 20 [] true MetaPartType.text], 0, [], 0, [], 0⟩ []
      ⟨fun mid a b => some [mid, a, b], fun _ _ => some [], fun _ _ => some []⟩
      [] false 7 9 3 11 false [Attribute.binary false [1] none] =
      ([], [Emit.unknownCte [1] 3]))
    ∧
    (runFetch ⟨fun _ => none, fun _ => none, fun _ => none, fun _ => none,
        fun _ => none, fun _ _ => ⟨fun _ _ _ => none, fun _ _ => none, fun _ _ => none⟩,
        fun _ => WriteOutcome.ok, true, true⟩ 0 0 [] false [] ≠ Except.error ()) := by
  refine ⟨?_, ?_, ?_⟩
  · exact binary_decode_failure_element_error.1
      ⟨fun mid a b => some [mid, a, b], fun _ _ => some [], fun _ _ => some []⟩
      [MetaPart.mk 0 10 20 [] true MetaPartType.text] [1] none
      (0, MetaPart.mk 0 10 20 [] true MetaPartType.text, 0) rfl rfl
  · exact binary_decode_failure_element_error.2.1
      ⟨fun _ => none, fun _ => none, fun _ => none, fun _ => none,
        fun _ => none, fun _ _ => ⟨fun _ _ _ => none, fun _ _ => none, fun _ _ => none⟩,
        fun _ => WriteOutcome.ok, true, true⟩ 0
      ⟨[MetaPart.mk 0 10 20 [] true MetaPartType.text], 0, [], 0, [], 0⟩ []
      ⟨fun mid a b => some [mid, a, b], fun _ _ => some [], fun _ _ => some []⟩
      [] false 7 9 3 11 false false [1] none rfl
  · obtain ⟨r, hr, -⟩ := binary_decode_failure_element_error.2.2.2.2
      ⟨fun _ => none, fun _ => none, fun _ => none, fun _ => none,
        fun _ => none, fun _ _ => ⟨fun _ _ _ => none, fun _ _ => none, fun _ _ => none⟩,
        fun _ => WriteOutcome.ok, true, true⟩ 0 0 [] false []
      (fun i h => WriteOutcome.noConfusion h)
    rw [hr]
    exact fun h => Except.noConfusion h

end MailStore

namespace MailStore

/-- C8: a record whose stored metadata or keywords cannot be found is
skipped entirely — the accumulator's client-visible emissions are left
untouched and only a metadata-not-found event is logged; a record whose
raw content blob cannot be found (when the attribute list requires blobs)
is likewise skipped with a blob-not-found log event; the command still
completes with a tagged OK whenever no fatal store error occurs; and in a
concrete two-record FETCH where the second record's metadata is missing,
exactly the first record's untagged response is emitted, the event is
logged, nothing is surfaced to the client for the missing record, and the
command completes OK. -/
theorem missing_record_skipped :
    (∀ (env : FetchEnv) (acct : Nat) (attrs : List Attribute) (pf : PropFlags)
        (ssf isUid : Bool) (seq uid id : Nat) (acc : FetchAcc),
        env.meta id = none ∨ env.keywordsOf id = none →
        processRecord env acct attrs pf ssf isUid seq uid id acc =
          { acc with logs := acc.logs ++ [LogEvent.metadataNotFound id] })
    ∧
    (∀ (env : FetchEnv) (acct : Nat) (attrs : List Attribute) (pf : PropFlags)
        (ssf isUid : Bool) (seq uid id : Nat) (acc : FetchAcc)
        (email : MetaMessage) (kws : List Keyword),
        env.meta id = some email → env.keywordsOf id = some kws →
        pf.needsBlobs = true → env.blob email.blobHash = none →
        processRecord env acct attrs pf ssf isUid seq uid id acc =
          { acc with logs := acc.logs ++ [LogEvent.blobNotFound id] })
    ∧
    (∀ (env : FetchEnv) (acct c : Nat) (attrs : List Attribute) (isUid : Bool)
        (ids : List (Nat × ImapId)),
        (∀ i, env.seenWrite i ≠ WriteOutcome.fatal) →
        ∃ r, runFetch env acct c attrs isUid ids = .ok r ∧ r.completedOk = true)
    ∧
    ((runFetch ⟨fun i => if i ≤ 2 then
          some ⟨[MetaPart.mk 0 10 20 [] false MetaPartType.text], i, [1, 2, 3], 5, [], 9⟩
        else none,
        fun i => if i ≤ 2 then some [Keyword.other i] else none,
        fun _ => some 3, fun _ => some 41, fun _ => some [7, 7, 7],
        fun _ _ => ⟨fun mid a b => some [mid, a, b], fun _ _ => some [],
          fun _ _ => some []⟩,
        fun _ => WriteOutcome.ok, true, true⟩ 0 10 [Attribute.flags] false
        [(1, ⟨2, 12⟩), (5, ⟨3, 13⟩)]).map
      (fun r => (r.emits, r.logs, r.seenAttempts, r.committed, r.broadcast,
        r.counter, r.completedOk)) =
      .ok ([Emit.fetchItem 2 [FDataItem.flags [Keyword.other 1]]],
        [LogEvent.metadataNotFound 5], [], none, false, 10, true)) := by
  refine ⟨?_, ?_, ?_, by rfl⟩
  · intro env acct attrs pf ssf isUid seq uid id acc hmiss
    unfold processRecord
    rcases hmiss with hm | hk
    · rw [hm]
    · cases hmm : env.meta id with
      | none => rfl
      | some email => rw [hk]
  · intro env acct attrs pf ssf isUid seq uid id acc email kws hmeta hkws hblob hnone
    unfold processRecord
    rw [hmeta, hkws]
    dsimp only
    rw [hblob]
    try dsimp only
    try rw [hnone]
    simp
  · intro env acct c attrs isUid ids hf
    exact runFetch_total env acct c attrs isUid ids hf

end MailStore

namespace MailStore

/-- Witness for C8: a record with no stored metadata is skipped with only a
log event; a record whose blob is missing is skipped with a blob log
event; and a FETCH command over such records still returns a response. -/
theorem missing_record_skipped_witness :
    (processRecord ⟨fun _ => none, fun _ => some [], fun _ => some 3,
        fun _ => some 41, fun _ => some [7],
        fun _ _ => ⟨fun _ _ _ => none, fun _ _ => none, fun _ _ => none⟩,
        fun _ => WriteOutcome.ok, true, true⟩ 0 [Attribute.flags]
        ⟨false, false, false⟩ false false 3 13 5
        { emits := [], logs := [], setSeenIds := [] } =
      { emits := [], logs := [LogEvent.metadataNotFound 5], setSeenIds := [] })
    ∧
    (processRecord ⟨fun _ => some ⟨[MetaPart.mk 0 10 20 [] false MetaPartType.text],
          4, [1, 2], 5, [], 9⟩,
        fun _ => some [], fun _ => some 3, fun _ => some 41, fun _ => none,
        fun _ _ => ⟨fun _ _ _ => none, fun _ _ => none, fun _ _ => none⟩,
        fun _ => WriteOutcome.ok, true, true⟩ 0 [Attribute.rfc822]
        ⟨false, false, true⟩ false false 3 13 5
        { emits := [], logs := [], setSeenIds := [] } =
      { emits := [], logs := [LogEvent.blobNotFound 5], setSeenIds := [] })
    ∧
    (runFetch ⟨fun _ => none, fun _ => some [], fun _ => some 3,
        fun _ => some 41, fun _ => some [7],
        fun _ _ => ⟨fun _ _ _ => none, fun _ _ => none, fun _ _ => none⟩,
        fun _ => WriteOutcome.ok, true, true⟩ 0 10 [Attribute.flags] false
        [(5, ⟨3, 13⟩)] ≠ Except.error ()) := by
  refine ⟨?_, ?_, ?_⟩
  · exact missing_record_skipped.1 ⟨fun _ => none, fun _ => some [], fun _ => some 3,
        fun _ => some 41, fun _ => some [7],
        fun _ _ => ⟨fun _ _ _ => none, fun _ _ => none, fun _ _ => none⟩,
        fun _ => WriteOutcome.ok, true, true⟩ 0 [Attribute.flags]
        ⟨false, false, false⟩ false false 3 13 5
        { emits := [], logs := [], setSeenIds := [] } (Or.inl rfl)
  · exact missing_record_skipped.2.1 ⟨fun _ => some ⟨[MetaPart.mk 0 10 20 [] false
          MetaPartType.text], 4, [1, 2], 5, [], 9⟩,
        fun _ => some [], fun _ => some 3, fun _ => some 41, fun _ => none,
        fun _ _ => ⟨fun _ _ _ => none, fun _ _ => none, fun _ _ => none⟩,
        fun _ => WriteOutcome.ok, true, true⟩ 0 [Attribute.rfc822]
        ⟨false, false, true⟩ false false 3 13 5
        { emits := [], logs := [], setSeenIds := [] }
        ⟨[MetaPart.mk 0 10 20 [] false MetaPartType.text], 4, [1, 2], 5, [], 9⟩
        [] rfl rfl rfl rfl
  · obtain ⟨r, hr, -⟩ := missing_record_skipped.2.2.1 ⟨fun _ => none,
        fun _ => some [], fun _ => some 3, fun _ => some 41, fun _ => some [7],
        fun _ _ => ⟨fun _ _ _ => none, fun _ _ => none, fun _ _ => none⟩,
        fun _ => WriteOutcome.ok, true, true⟩ 0 10 [Attribute.flags] false
        [(5, ⟨3, 13⟩)] (fun i h => WriteOutcome.noConfusion h)
    rw [hr]
    exact fun h => Except.noConfusion h

end MailStore

namespace MailStore

lemma processRecord_emits (env : FetchEnv) (acct : Nat) (attrs : List Attribute)
    (pf : PropFlags) (ssf isUid : Bool) (seq uid id : Nat) (acc : FetchAcc) :
    ∃ e, (processRecord env acct attrs pf ssf isUid seq uid id acc).emits =
        acc.emits ++ e ∧
      (emittedSeqs e = [] ∨ emittedSeqs e = [seq]) := by
  unfold processRecord
  cases hm : env.meta id with
  | none => exact ⟨[], by simp, Or.inl rfl⟩
  | some email =>
    cases hk : env.keywordsOf id with
    | none => exact ⟨[], by simp, Or.inl rfl⟩
    | some kws =>
      dsimp only
      cases hraw : (if pf.needsBlobs then env.blob email.blobHash
          else some email.rawHeaders) with
      | none => exact ⟨[], by simp, Or.inl rfl⟩
      | some raw =>
        dsimp only
        cases htid : (if pf.needsThreadId || (ssf && !kws.contains Keyword.seen) then
            env.threadIdOf id else some 0) with
        | none => exact ⟨[], by simp, Or.inl rfl⟩
        | some tid =>
          refine ⟨_, by dsimp only; rw [List.append_assoc], Or.inr ?_⟩
          rw [emittedSeqs_append, runAttrs_errs_no_fetchItem]
          rfl

lemma fetchFold_emits (env : FetchEnv) (acct : Nat) (attrs : List Attribute)
    (pf : PropFlags) (ssf isUid : Bool) :
    ∀ (l : List (Nat × Nat × Nat)) (acc : FetchAcc),
      ∃ T, (l.foldl (fun acc t => processRecord env acct attrs pf ssf isUid
          t.1 t.2.1 t.2.2 acc) acc).emits = acc.emits ++ T ∧
        List.Sublist (emittedSeqs T) (l.map (fun t => t.1)) := by
  intro l
  induction l with
  | nil => intro acc; exact ⟨[], by simp, by simp [emittedSeqs]⟩
  | cons t l ih =>
    intro acc
    obtain ⟨e, he, hcase⟩ := processRecord_emits env acct attrs pf ssf isUid
      t.1 t.2.1 t.2.2 acc
    obtain ⟨T, hT, hsub⟩ := ih (processRecord env acct attrs pf ssf isUid
      t.1 t.2.1 t.2.2 acc)
    refine ⟨e ++ T, ?_, ?_⟩
    · rw [List.foldl_cons, hT, he, List.append_assoc]
    · rw [emittedSeqs_append]
      rcases hcase with hc | hc
      · rw [hc]
        exact List.Sublist.cons t.1 (by simpa using hsub)
      · rw [hc]
        exact List.Sublist.cons₂ t.1 (by simpa using hsub)

lemma successItems_seq_sub (args : StoreArgs) (ctx : StoreCtx) (imapId : ImapId)
    (ks : List Keyword) (m : Nat) :
    List.Sublist ((successItems args ctx imapId ks m).map RespItem.seqnum)
      [imapId.seqnum] := by
  unfold successItems
  split
  · simp
  · split <;> simp

lemma storeRecordGo_items {env : StoreEnv} {maxR : Nat} {args : StoreArgs}
    {ctx : StoreCtx} {id : Nat} {imapId : ImapId} :
    ∀ (fuel t : Nat) (st st' : StoreState),
      storeRecordGo env maxR args ctx id imapId t fuel st = .ok st' →
      List.Sublist (st'.items.map RespItem.seqnum)
        (st.items.map RespItem.seqnum ++ [imapId.seqnum]) := by
  intro fuel
  induction fuel with
  | zero =>
    intro t st st' h
    cases hdb : st.db id with
    | none =>
      rw [storeRecordGo_skip hdb] at h
      obtain rfl : _ = st' := Except.ok.inj h
      simp
    | some pr =>
      obtain ⟨data, tid⟩ := pr
      by_cases hg : (applyOperation args.operation args.keywords data).1.keywords
          = data.keywords
      · rw [storeRecordGo_noop hdb hg] at h
        obtain rfl : _ = st' := Except.ok.inj h
        simp
      · cases hw : env.write id t with
        | fatal => rw [storeRecordGo_write_fatal hdb hg hw] at h; cases h
        | ok =>
          rw [storeRecordGo_write_ok hdb hg hw] at h
          dsimp only at h
          split at h
          all_goals
            obtain rfl : _ = st' := Except.ok.inj h
            simp only [markMailboxes_items, ensureChangeId_items, List.map_append]
            exact List.Sublist.append (List.Sublist.refl _)
              (successItems_seq_sub args ctx imapId _ _)
        | assertFail =>
          rw [storeRecordGo_conflict_step hdb hg hw] at h
          dsimp only at h
          split at h
          all_goals
            obtain rfl : _ = st' := Except.ok.inj h
            simp only [markMailboxes_items, ensureChangeId_items]
            exact List.sublist_append_left _ _
  | succ f ih =>
    intro t st st' h
    cases hdb : st.db id with
    | none =>
      rw [storeRecordGo_skip hdb] at h
      obtain rfl : _ = st' := Except.ok.inj h
      simp
    | some pr =>
      obtain ⟨data, tid⟩ := pr
      by_cases hg : (applyOperation args.operation args.keywords data).1.keywords
          = data.keywords
      · rw [storeRecordGo_noop hdb hg] at h
        obtain rfl : _ = st' := Except.ok.inj h
        simp
      · cases hw : env.write id t with
        | fatal => rw [storeRecordGo_write_fatal hdb hg hw] at h; cases h
        | ok =>
          rw [storeRecordGo_write_ok hdb hg hw] at h
          dsimp only at h
          split at h
          all_goals
            obtain rfl : _ = st' := Except.ok.inj h
            simp only [markMailboxes_items, ensureChangeId_items, List.map_append]
            exact List.Sublist.append (List.Sublist.refl _)
              (successItems_seq_sub args ctx imapId _ _)
        | assertFail =>
          rw [storeRecordGo_conflict_step hdb hg hw] at h
          dsimp only at h
          split at h
          all_goals
            have hmid := ih (t + 1) _ st' h
            simp only [markMailboxes_items, ensureChangeId_items] at hmid
            exact hmid

lemma storeRecords_items {env : StoreEnv} {maxR : Nat} {args : StoreArgs}
    {ctx : StoreCtx} :
    ∀ (ids : List (Nat × ImapId)) (st st' : StoreState),
      storeRecords env maxR args ctx ids st = .ok st' →
      List.Sublist (st'.items.map RespItem.seqnum)
        (st.items.map RespItem.seqnum ++ ids.map (fun p => p.2.seqnum)) := by
  intro ids
  induction ids with
  | nil =>
    intro st st' h
    obtain rfl : st = st' := Except.ok.inj h
    simp
  | cons q rest ih =>
    intro st st' h
    unfold storeRecords at h
    cases hr : storeRecord env maxR args ctx q.1 q.2 st with
    | error e => rw [hr] at h; cases h
    | ok st1 =>
      rw [hr] at h
      have h1 := storeRecordGo_items maxR 0 st st1 hr
      have h2 := ih st1 st' h
      refine List.Sublist.trans h2 ?_
      have h3 := List.Sublist.append h1
        (List.Sublist.refl (rest.map (fun p => p.2.seqnum)))
      refine List.Sublist.trans h3 ?_
      rw [List.append_assoc]
      simp

end MailStore

namespace MailStore

/-- C9 (amended): a FETCH command sorts the resolved records by sequence
number before processing, so its untagged responses are emitted in
ascending sequence-position order; a STORE command iterates the resolved
id map in the order it is given (keyed by record id, spec §4.1) without
re-sorting, so its untagged responses follow that map order — one response
per updated record, a subsequence of the given order — and not necessarily
ascending sequence-position order. -/
theorem processing_order_amended :
    (∀ (env : FetchEnv) (acct c : Nat) (attrs : List Attribute) (isUid : Bool)
        (ids : List (Nat × ImapId)) (r : FetchResult),
        runFetch env acct c attrs isUid ids = .ok r →
        List.Pairwise (· ≤ ·) (emittedSeqs r.emits))
    ∧
    (∀ (env : StoreEnv) (maxR : Nat) (args : StoreArgs) (ctx : StoreCtx)
        (ids : List (Nat × ImapId)) (db : Nat → Option (MessageData × Nat))
        (c0 : Nat) (r : StoreResult),
        runStore env maxR args ctx ids (initStoreState db c0) = .ok r →
        List.Sublist (r.state.items.map RespItem.seqnum)
          (ids.map (fun p => p.2.seqnum))) := by
  constructor
  · intro env acct c attrs isUid ids r h
    unfold runFetch at h
    dsimp only at h
    obtain ⟨T, hT, hsub⟩ := fetchFold_emits env acct (adjustAttrs isUid attrs)
      (computePropFlags env.isSelect attrs)
      ((computePropFlags env.isSelect attrs).setSeenFlags && env.aclModify) isUid
      (List.insertionSort (fun a b => a.1 ≤ b.1)
        (ids.map (fun p => (p.2.seqnum, p.2.uid, p.1))))
      { emits := [], logs := [], setSeenIds := [] }
    have hre : r.emits =
        ((List.insertionSort (fun a b => a.1 ≤ b.1)
          (ids.map (fun p => (p.2.seqnum, p.2.uid, p.1)))).foldl
          (fun acc t => processRecord env acct (adjustAttrs isUid attrs)
            (computePropFlags env.isSelect attrs)
            ((computePropFlags env.isSelect attrs).setSeenFlags && env.aclModify)
            isUid t.1 t.2.1 t.2.2 acc)
          { emits := [], logs := [], setSeenIds := [] }).emits := by
      split at h
      · exact (congrArg FetchResult.emits (Except.ok.inj h).symm :)
      · split at h
        · cases h
        · rename_i heq
          split at h
          · exact (congrArg FetchResult.emits (Except.ok.inj h).symm :)
          · exact (congrArg FetchResult.emits (Except.ok.inj h).symm :)
    rw [hre, hT]
    have hsorted : List.Pairwise (fun (a b : Nat × Nat × Nat) => a.1 ≤ b.1)
        (List.insertionSort (fun a b => a.1 ≤ b.1)
          (ids.map (fun p => (p.2.seqnum, p.2.uid, p.1)))) := by
      haveI ht : IsTotal (Nat × Nat × Nat) (fun a b => a.1 ≤ b.1) :=
        ⟨fun a b => Nat.le_total a.1 b.1⟩
      haveI htr : IsTrans (Nat × Nat × Nat) (fun a b => a.1 ≤ b.1) :=
        ⟨fun a b c hab hbc => Nat.le_trans hab hbc⟩
      exact List.sorted_insertionSort _ _
    have hmap : List.Pairwise (· ≤ ·)
        ((List.insertionSort (fun (a b : Nat × Nat × Nat) => a.1 ≤ b.1)
          (ids.map (fun p => (p.2.seqnum, p.2.uid, p.1)))).map (fun t => t.1)) :=
      List.pairwise_map.mpr hsorted
    simpa using List.Pairwise.sublist hsub hmap
  · intro env maxR args ctx ids db c0 r h
    unfold runStore at h
    cases hrec : storeRecords env maxR args ctx ids (initStoreState db c0) with
    | error e => rw [hrec] at h; cases h
    | ok st' =>
      rw [hrec] at h
      dsimp only at h
      have hit := storeRecords_items ids (initStoreState db c0) st' hrec
      have hri : r.state.items = st'.items := by
        split at h
        · exact (congrArg (fun x => x.state.items) (Except.ok.inj h).symm :)
        · exact (congrArg (fun x => x.state.items) (Except.ok.inj h).symm :)
      rw [hri]
      simpa using hit

end MailStore

namespace MailStore

/-- Counterexample to C9 as stated: a STORE command over a resolved id map
whose record-id order opposes sequence order (record 1 at sequence
position 2, record 2 at position 1) emits its untagged responses as
[2, 1] — the map's iteration order — which is not ascending
sequence-position order; STORE performs no re-sort (unlike FETCH). -/
theorem processing_order_counterexample :
    ((runStore ⟨fun _ _ => WriteOutcome.ok⟩ 3
        ⟨Operation.add, [Keyword.other 5], false⟩ ⟨false, false⟩
        [(1, ⟨2, 2⟩), (2, ⟨1, 1⟩)]
        (initStoreState
          (fun i => if i = 1 ∨ i = 2 then some (⟨[], [], 0⟩, 7) else none) 0)).map
      (fun r => r.state.items.map RespItem.seqnum) = .ok [2, 1])
    ∧ ¬ List.Pairwise (· ≤ ·) [2, 1] := ⟨rfl, by decide⟩

/-- Witness for the amended C9: a FETCH over records resolved in the order
seqnum 2 then seqnum 1 still emits its responses sorted ascending, and a
one-record STORE emits a response subsequence of the given map order. -/
theorem processing_order_amended_witness :
    List.Pairwise (· ≤ ·) (emittedSeqs
      [Emit.fetchItem 1 [FDataItem.flags [Keyword.other 2]],
       Emit.fetchItem 2 [FDataItem.flags [Keyword.other 1]]])
    ∧
    List.Sublist
      (List.map RespItem.seqnum
        [{ seqnum := 1, items := [RespData.flags [Keyword.other 5]] }])
      (List.map (fun p => p.2.seqnum) [((1 : Nat), (⟨1, 1⟩ : ImapId))]) := by
  constructor
  · exact processing_order_amended.1
      ⟨fun i => if i ≤ 2 then
          some ⟨[MetaPart.mk 0 10 20 [] false MetaPartType.text], i, [1, 2, 3], 5, [], 9⟩
        else none,
        fun i => if i ≤ 2 then some [Keyword.other i] else none,
        fun _ => some 3, fun _ => some 41, fun _ => some [7, 7, 7],
        fun _ _ => ⟨fun mid a b => some [mid, a, b], fun _ _ => some [],
          fun _ _ => some []⟩,
        fun _ => WriteOutcome.ok, true, true⟩ 0 10 [Attribute.flags] false
      [(1, ⟨2, 12⟩), (2, ⟨1, 11⟩)]
      ⟨[Emit.fetchItem 1 [FDataItem.flags [Keyword.other 2]],
        Emit.fetchItem 2 [FDataItem.flags [Keyword.other 1]]],
       [], [], none, false, 10, true⟩ rfl
  · have hs : runStore ⟨fun _ _ => WriteOutcome.ok⟩ 3
        ⟨Operation.add, [Keyword.other 5], false⟩ ⟨false, false⟩ [(1, ⟨1, 1⟩)]
        (initStoreState
          (fun i => if i = 1 then some (⟨[], [], 0⟩, 7) else none) 0) =
        .ok { state :=
                { db := fun i =>
                    if i = 1 then some (⟨[Keyword.other 5], [], 0⟩, 7)
                    else (fun j => if j = 1 then some (⟨[], [], 0⟩, 7)
                          else none) i,
                  counter := 1,
                  changelog := ⟨some 0, [ChangeEntry.update emailCollection 1]⟩,
                  changedMailboxes := [],
                  items := [{ seqnum := 1,
                              items := [RespData.flags [Keyword.other 5]] }],
                  failed := false, reads := [(1, 0)] },
              committed := some (0, [ChangeEntry.update emailCollection 1]),
              broadcast := some false } := rfl
    exact processing_order_amended.2 ⟨fun _ _ => WriteOutcome.ok⟩ 3
      ⟨Operation.add, [Keyword.other 5], false⟩ ⟨false, false⟩ [(1, ⟨1, 1⟩)]
      (fun i => if i = 1 then some (⟨[], [], 0⟩, 7) else none) 0 _ hs

end MailStore

namespace MailStore

lemma processRecord_setSeenIds_false (env : FetchEnv) (acct : Nat)
    (attrs : List Attribute) (pf : PropFlags) (isUid : Bool)
    (s u id : Nat) (acc : FetchAcc) :
    (processRecord env acct attrs pf false isUid s u id acc).setSeenIds
      = acc.setSeenIds := by
  unfold processRecord
  split
  · split
    · rfl
    · dsimp only
      split
      · rfl
      · simp
  · rfl

lemma fetchFold_setSeenIds_false (env : FetchEnv) (acct : Nat)
    (attrs : List Attribute) (pf : PropFlags) (isUid : Bool) :
    ∀ (l : List (Nat × Nat × Nat)) (acc : FetchAcc),
      (l.foldl (fun acc t => processRecord env acct attrs pf false isUid
        t.1 t.2.1 t.2.2 acc) acc).setSeenIds = acc.setSeenIds := by
  intro l
  induction l with
  | nil => intro acc; rfl
  | cons t l ih =>
    intro acc
    rw [List.foldl_cons, ih, processRecord_setSeenIds_false]

lemma processRecord_setSeenIds_seen (env : FetchEnv) (acct : Nat)
    (attrs : List Attribute) (pf : PropFlags) (ssf isUid : Bool)
    (s u id : Nat) (acc : FetchAcc) (kws : List Keyword)
    (hkw : env.keywordsOf id = some kws)
    (hseen : kws.contains Keyword.seen = true) :
    (processRecord env acct attrs pf ssf isUid s u id acc).setSeenIds
      = acc.setSeenIds := by
  unfold processRecord
  rw [hkw]
  cases hm : env.meta id with
  | none => rfl
  | some email =>
    dsimp only
    split
    · rfl
    · split
      · rfl
      · simp [hseen]
        exact fun _ => List.mem_of_elem_eq_true hseen

lemma processRecord_setSeenIds_queued (env : FetchEnv) (acct : Nat)
    (attrs : List Attribute) (pf : PropFlags) (isUid : Bool)
    (s u id : Nat) (acc : FetchAcc) (email : MetaMessage)
    (kws : List Keyword) (raw : List Nat) (tid : Nat)
    (hm : env.meta id = some email)
    (hkw : env.keywordsOf id = some kws)
    (hseen : kws.contains Keyword.seen = false)
    (hblob : (if pf.needsBlobs then env.blob email.blobHash
              else some email.rawHeaders) = some raw)
    (htid : env.threadIdOf id = some tid) :
    (processRecord env acct attrs pf true isUid s u id acc).setSeenIds
      = acc.setSeenIds ++ [(tid, id, kws)] := by
  unfold processRecord
  rw [hm, hkw]
  dsimp only
  rw [hblob]
  dsimp only
  simp only [hseen, Bool.not_false, Bool.and_true, Bool.or_true, if_true]
  rw [htid]

/-- C10: the set-`\Seen` side effect of a non-peek body/binary or
RFC822/RFC822.TEXT fetch. (1) Without the modify capability the side
effect is suppressed entirely: the command attempts no side-effect write,
commits no change batch, broadcasts nothing and consumes no counter value.
(2) With the capability, a record whose lookups succeed and whose keywords
lack `\Seen` is queued for the side-effect phase. (3) A record already
carrying `\Seen` is never queued. (4) The side-effect phase attempts
exactly one conditional write per queued record — the attempt trace equals
the queue, in order, with no repetition — and logs a change entry exactly
for the writes that succeed, so an assertion (concurrent-modification)
failure is abandoned with no retry and no change entry. (5) A fatal store
error in the side-effect phase fails the command. (6) When no write is
fatal — assertion failures included — the command still completes with a
tagged OK. -/
theorem fetch_set_seen_side_effect :
    (∀ (env : FetchEnv) (acct c : Nat) (attrs : List Attribute) (isUid : Bool)
       (ids : List (Nat × ImapId)) (r : FetchResult),
       env.aclModify = false →
       runFetch env acct c attrs isUid ids = .ok r →
       r.seenAttempts = [] ∧ r.committed = none ∧ r.broadcast = false ∧
         r.counter = c)
    ∧
    (∀ (env : FetchEnv) (acct : Nat) (attrs : List Attribute) (pf : PropFlags)
       (isUid : Bool) (s u id : Nat) (acc : FetchAcc) (email : MetaMessage)
       (kws : List Keyword) (raw : List Nat) (tid : Nat),
       env.meta id = some email →
       env.keywordsOf id = some kws →
       kws.contains Keyword.seen = false →
       (if pf.needsBlobs then env.blob email.blobHash
        else some email.rawHeaders) = some raw →
       env.threadIdOf id = some tid →
       (processRecord env acct attrs pf true isUid s u id acc).setSeenIds
         = acc.setSeenIds ++ [(tid, id, kws)])
    ∧
    (∀ (env : FetchEnv) (acct : Nat) (attrs : List Attribute) (pf : PropFlags)
       (ssf isUid : Bool) (s u id : Nat) (acc : FetchAcc) (kws : List Keyword),
       env.keywordsOf id = some kws →
       kws.contains Keyword.seen = true →
       (processRecord env acct attrs pf ssf isUid s u id acc).setSeenIds
         = acc.setSeenIds)
    ∧
    (∀ (env : FetchEnv) (queue : List (Nat × Nat × List Keyword))
       (cl : ChangeLog) (att : List Nat) (res : ChangeLog × List Nat),
       runSeenPhase env queue cl att = .ok res →
       res.2 = att ++ queue.map (fun q => q.2.1) ∧
       res.1.changes = cl.changes
         ++ (queue.filter (fun q => env.seenWrite q.2.1 == WriteOutcome.ok)).map
             (fun q => ChangeEntry.update emailCollection q.2.1))
    ∧
    (∀ (env : FetchEnv) (tid id : Nat) (kws : List Keyword)
       (rest : List (Nat × Nat × List Keyword)) (cl : ChangeLog)
       (att : List Nat),
       env.seenWrite id = WriteOutcome.fatal →
       runSeenPhase env ((tid, id, kws) :: rest) cl att = .error ())
    ∧
    (∀ (env : FetchEnv) (acct c : Nat) (attrs : List Attribute) (isUid : Bool)
       (ids : List (Nat × ImapId)),
       (∀ i, env.seenWrite i ≠ WriteOutcome.fatal) →
       ∃ r, runFetch env acct c attrs isUid ids = .ok r ∧
         r.completedOk = true) := by
  refine ⟨?_, ?_, ?_, ?_, ?_, ?_⟩
  · intro env acct c attrs isUid ids r hA h
    unfold runFetch at h
    dsimp only at h
    rw [hA, Bool.and_false] at h
    rw [fetchFold_setSeenIds_false] at h
    simp only [List.isEmpty_nil, if_true] at h
    obtain rfl := Except.ok.inj h
    exact ⟨rfl, rfl, rfl, rfl⟩
  · intro env acct attrs pf isUid s u id acc email kws raw tid hm hkw hseen hblob htid
    exact processRecord_setSeenIds_queued env acct attrs pf isUid s u id acc
      email kws raw tid hm hkw hseen hblob htid
  · intro env acct attrs pf ssf isUid s u id acc kws hkw hseen
    exact processRecord_setSeenIds_seen env acct attrs pf ssf isUid s u id acc
      kws hkw hseen
  · intro env queue cl att res h
    obtain ⟨h1, h2, _⟩ := runSeenPhase_spec env queue cl att res h
    exact ⟨h1, h2⟩
  · intro env tid id kws rest cl att hw
    unfold runSeenPhase
    rw [hw]
  · intro env acct c attrs isUid ids hf
    exact runFetch_total env acct c attrs isUid ids hf

end MailStore

namespace MailStore

/-- Witness for C10: a concrete fetch without modify capability of an
unseen message over a non-peek RFC822 attribute attempts no side-effect
write, commits nothing and keeps the counter; the same record with the
capability is queued; the record marked `\Seen` is not; a queue of one
succeeding and one assertion-failing write yields the two-element attempt
trace and exactly one change entry; a fatal write errors the phase; and a
fetch whose writes never turn fatal completes. -/
theorem fetch_set_seen_side_effect_witness :
    ((⟨[Emit.fetchItem 1 [FDataItem.rfc822 [7, 7, 7]]], [], [], none, false,
        10, true⟩ : FetchResult).seenAttempts = []
      ∧ (⟨[Emit.fetchItem 1 [FDataItem.rfc822 [7, 7, 7]]], [], [], none, false,
        10, true⟩ : FetchResult).committed = none
      ∧ (⟨[Emit.fetchItem 1 [FDataItem.rfc822 [7, 7, 7]]], [], [], none, false,
        10, true⟩ : FetchResult).broadcast = false
      ∧ (⟨[Emit.fetchItem 1 [FDataItem.rfc822 [7, 7, 7]]], [], [], none, false,
        10, true⟩ : FetchResult).counter = 10)
    ∧
    ((processRecord
        ⟨fun i => if i = 1 then
            some ⟨[MetaPart.mk 0 10 20 [] false MetaPartType.text], 1,
              [1, 2, 3], 5, [], 9⟩
          else none,
         fun i => if i = 1 then some [Keyword.other 1] else none,
         fun _ => some 3, fun _ => some 41, fun _ => some [7, 7, 7],
         fun _ _ => ⟨fun mid a b => some [mid, a, b], fun _ _ => some [],
           fun _ _ => some []⟩,
         fun _ => WriteOutcome.ok, true, true⟩ 0 [Attribute.rfc822]
        ⟨true, false, true⟩ true false 1 11 1 ⟨[], [], []⟩).setSeenIds
      = [(3, 1, [Keyword.other 1])])
    ∧
    ((processRecord
        ⟨fun i => if i = 1 then
            some ⟨[MetaPart.mk 0 10 20 [] false MetaPartType.text], 1,
              [1, 2, 3], 5, [], 9⟩
          else none,
         fun i => if i = 1 then some [Keyword.seen] else none,
         fun _ => some 3, fun _ => some 41, fun _ => some [7, 7, 7],
         fun _ _ => ⟨fun mid a b => some [mid, a, b], fun _ _ => some [],
           fun _ _ => some []⟩,
         fun _ => WriteOutcome.ok, true, true⟩ 0 [Attribute.rfc822]
        ⟨true, false, true⟩ true false 1 11 1 ⟨[], [], []⟩).setSeenIds = [])
    ∧
    (([1, 2] : List Nat)
        = [] ++ List.map (fun q => q.2.1)
            [((3 : Nat), (1 : Nat), ([] : List Keyword)), (4, 2, [])]
      ∧ ([ChangeEntry.update emailCollection 1] : List ChangeEntry)
        = [] ++ List.map (fun q => ChangeEntry.update emailCollection q.2.1)
            (List.filter
              (fun q => (⟨fun _ => none, fun _ => none, fun _ => none,
                  fun _ => none, fun _ => none,
                  fun _ _ => ⟨fun _ _ _ => none, fun _ _ => none,
                    fun _ _ => none⟩,
                  fun i => if i = 1 then WriteOutcome.ok
                    else WriteOutcome.assertFail,
                  true, true⟩ : FetchEnv).seenWrite q.2.1 == WriteOutcome.ok)
              [((3 : Nat), (1 : Nat), ([] : List Keyword)), (4, 2, [])]))
    ∧
    (runSeenPhase
        ⟨fun _ => none, fun _ => none, fun _ => none, fun _ => none,
         fun _ => none,
         fun _ _ => ⟨fun _ _ _ => none, fun _ _ => none, fun _ _ => none⟩,
         fun _ => WriteOutcome.fatal, true, true⟩
        [(0, 5, [])] ⟨none, []⟩ [] = Except.error ())
    ∧
    (runFetch
        ⟨fun i => if i = 1 then
            some ⟨[MetaPart.mk 0 10 20 [] false MetaPartType.text], 1,
              [1, 2, 3], 5, [], 9⟩
          else none,
         fun i => if i = 1 then some [Keyword.other 1] else none,
         fun _ => some 3, fun _ => some 41, fun _ => some [7, 7, 7],
         fun _ _ => ⟨fun mid a b => some [mid, a, b], fun _ _ => some [],
           fun _ _ => some []⟩,
         fun _ => WriteOutcome.ok, false, true⟩ 0 10 [Attribute.flags] false
        [(1, ⟨1, 11⟩)] ≠ Except.error ()) := by
  refine ⟨?_, ?_, ?_, ?_, ?_, ?_⟩
  · exact fetch_set_seen_side_effect.1
      ⟨fun i => if i = 1 then
          some ⟨[MetaPart.mk 0 10 20 [] false MetaPartType.text], 1,
            [1, 2, 3], 5, [], 9⟩
        else none,
       fun i => if i = 1 then some [Keyword.other 1] else none,
       fun _ => some 3, fun _ => some 41, fun _ => some [7, 7, 7],
       fun _ _ => ⟨fun mid a b => some [mid, a, b], fun _ _ => some [],
         fun _ _ => some []⟩,
       fun _ => WriteOutcome.ok, false, true⟩ 0 10 [Attribute.rfc822] false
      [(1, ⟨1, 11⟩)]
      ⟨[Emit.fetchItem 1 [FDataItem.rfc822 [7, 7, 7]]], [], [], none, false,
        10, true⟩ rfl rfl
  · exact fetch_set_seen_side_effect.2.1
      ⟨fun i => if i = 1 then
          some ⟨[MetaPart.mk 0 10 20 [] false MetaPartType.text], 1,
            [1, 2, 3], 5, [], 9⟩
        else none,
       fun i => if i = 1 then some [Keyword.other 1] else none,
       fun _ => some 3, fun _ => some 41, fun _ => some [7, 7, 7],
       fun _ _ => ⟨fun mid a b => some [mid, a, b], fun _ _ => some [],
         fun _ _ => some []⟩,
       fun _ => WriteOutcome.ok, true, true⟩ 0 [Attribute.rfc822]
      ⟨true, false, true⟩ false 1 11 1 ⟨[], [], []⟩
      ⟨[MetaPart.mk 0 10 20 [] false MetaPartType.text], 1, [1, 2, 3], 5, [],
        9⟩ [Keyword.other 1] [7, 7, 7] 3 rfl rfl (by decide) rfl rfl
  · exact fetch_set_seen_side_effect.2.2.1
      ⟨fun i => if i = 1 then
          some ⟨[MetaPart.mk 0 10 20 [] false MetaPartType.text], 1,
            [1, 2, 3], 5, [], 9⟩
        else none,
       fun i => if i = 1 then some [Keyword.seen] else none,
       fun _ => some 3, fun _ => some 41, fun _ => some [7, 7, 7],
       fun _ _ => ⟨fun mid a b => some [mid, a, b], fun _ _ => some [],
         fun _ _ => some []⟩,
       fun _ => WriteOutcome.ok, true, true⟩ 0 [Attribute.rfc822]
      ⟨true, false, true⟩ true false 1 11 1 ⟨[], [], []⟩ [Keyword.seen] rfl
      (by decide)
  · exact fetch_set_seen_side_effect.2.2.2.1
      ⟨fun _ => none, fun _ => none, fun _ => none, fun _ => none,
       fun _ => none,
       fun _ _ => ⟨fun _ _ _ => none, fun _ _ => none, fun _ _ => none⟩,
       fun i => if i = 1 then WriteOutcome.ok else WriteOutcome.assertFail,
       true, true⟩
      [((3 : Nat), (1 : Nat), ([] : List Keyword)), (4, 2, [])] ⟨some 0, []⟩
      [] (⟨some 0, [ChangeEntry.update emailCollection 1]⟩, [1, 2]) rfl
  · exact fetch_set_seen_side_effect.2.2.2.2.1
      ⟨fun _ => none, fun _ => none, fun _ => none, fun _ => none,
       fun _ => none,
       fun _ _ => ⟨fun _ _ _ => none, fun _ _ => none, fun _ _ => none⟩,
       fun _ => WriteOutcome.fatal, true, true⟩ 0 5 [] [] ⟨none, []⟩ [] rfl
  · obtain ⟨r, hr, _⟩ := fetch_set_seen_side_effect.2.2.2.2.2
      ⟨fun i => if i = 1 then
          some ⟨[MetaPart.mk 0 10 20 [] false MetaPartType.text], 1,
            [1, 2, 3], 5, [], 9⟩
        else none,
       fun i => if i = 1 then some [Keyword.other 1] else none,
       fun _ => some 3, fun _ => some 41, fun _ => some [7, 7, 7],
       fun _ _ => ⟨fun mid a b => some [mid, a, b], fun _ _ => some [],
         fun _ _ => some []⟩,
       fun _ => WriteOutcome.ok, false, true⟩ 0 10 [Attribute.flags] false
      [(1, ⟨1, 11⟩)] (fun i h => WriteOutcome.noConfusion h)
    rw [hr]
    exact fun hc => Except.noConfusion hc

end MailStore
